import Mathlib

/-!
Verification of two components of the databend repository against its
natural-language specification:

* `common/arrow/src/bitmap/util.rs` — packed-bitmap primitives
  (`is_set`, `set`, `set_bit`, `get_bit`, `count_zeros`), embedded in the
  namespace `Bitmap`;
* `src/query/storages/fuse/src/pruning/pruning_executor.rs` — the two-level
  block-pruning executor (`prune`, `prune_segment`, `prune_blocks`),
  embedded in the namespace `Pruning`.

Conventions of the shallow embedding:

* Rust `u8`/`u64`/`usize` values are `Nat`, with `% 256` (resp. `% 2 ^ 64`)
  inserted exactly where the machine width truncates a result.
* A Rust operation that can panic (slice indexing, range slicing) is
  `Option`-valued; `none` models the panic.
* Rust byte slices are `List Nat`; a byte buffer is well formed when every
  element is `< 256`.
-/

namespace Bitmap

/-- `BIT_MASK` from the source: `[1, 2, 4, 8, 16, 32, 64, 128]`. -/
def BIT_MASK : List Nat := [1, 2, 4, 8, 16, 32, 64, 128]

/-- `UNSET_BIT_MASK` from the source: complements of `BIT_MASK` in a byte. -/
def UNSET_BIT_MASK : List Nat :=
  [255 - 1, 255 - 2, 255 - 4, 255 - 8, 255 - 16, 255 - 32, 255 - 64, 255 - 128]

/-- `is_set(byte, i)`: whether bit `i` of `byte` is set.  Indexing
`BIT_MASK[i]` panics for `i ≥ 8`; the panic is modelled as `none`. -/
def is_set (byte : Nat) (i : Nat) : Option Bool :=
  (BIT_MASK.get? i).map (fun m => decide (byte &&& m ≠ 0))

/-- `set(byte, i, value)`: set or clear bit `i` of `byte`.  Indexing the
mask arrays panics for `i ≥ 8`; the panic is modelled as `none`. -/
def set (byte : Nat) (i : Nat) (value : Bool) : Option Nat :=
  if value then (BIT_MASK.get? i).map (fun m => byte ||| m)
  else (UNSET_BIT_MASK.get? i).map (fun m => byte &&& m)

/-- `set_bit(data, i, value)`: `data[i / 8] = set(data[i / 8], i % 8, value)`.
The byte access panics (modelled as `none`) when `i / 8 ≥ data.len()`. -/
def set_bit (data : List Nat) (i : Nat) (value : Bool) : Option (List Nat) :=
  (data.get? (i / 8)).bind (fun b =>
    (set b (i % 8) value).map (fun nb => data.set (i / 8) nb))

/-- `get_bit(data, i)`: `is_set(data[i / 8], i % 8)`.  The byte access
panics (modelled as `none`) when `i / 8 ≥ data.len()`. -/
def get_bit (data : List Nat) (i : Nat) : Option Bool :=
  (data.get? (i / 8)).bind (fun b => is_set b (i % 8))

/-- Rust's `u8::count_ones` / `u64::count_ones` intrinsic: population count
of the low 64 bits.  Every value it is applied to in `count_zeros` is a
`u8` or a `u64`, hence `< 2 ^ 64`, so counting the low 64 bits is exact. -/
def count_ones (n : Nat) : Nat :=
  (List.range 64).countP (fun k => n.testBit k)

/-- Rust `&s[a..b]`: panics (modelled as `none`) unless `a ≤ b ≤ s.len()`. -/
def slice_range (s : List Nat) (a b : Nat) : Option (List Nat) :=
  if a ≤ b ∧ b ≤ s.length then some ((s.drop a).take (b - a)) else none

/-- `slice.chunks_exact(8)`: the list of complete 8-byte chunks and the
remainder (fewer than 8 bytes). -/
def chunks_exact8 : List Nat → List (List Nat) × List Nat
  | b0 :: b1 :: b2 :: b3 :: b4 :: b5 :: b6 :: b7 :: rest =>
    let r := chunks_exact8 rest
    ([b0, b1, b2, b3, b4, b5, b6, b7] :: r.1, r.2)
  | s => ([], s)

/-- `u64::from_ne_bytes(chunk)`: reassemble 8 bytes into one 64-bit word
(byte order is irrelevant to the popcount taken of it). -/
def from_ne_bytes (chunk : List Nat) : Nat :=
  chunk.foldr (fun b acc => b + 256 * acc) 0

/-- The chunked middle-bytes popcount of `count_zeros` (source lines
108–123): 8-byte groups via a 64-bit popcount, then the leftover bytes
one at a time. -/
def middle_sum (s : List Nat) : Nat :=
  ((chunks_exact8 s).1.map (fun chunk => count_ones (from_ne_bytes chunk))).sum
    + ((chunks_exact8 s).2.map (fun byte => count_ones byte)).sum

/-- `count_zeros(slice, offset, len)` from the source.  `saturating_add(7)`
is plain `+ 7` on `Nat`.  The `u8` left shifts truncate, hence the
`% 256`.  Panicking accesses are modelled as `none`. -/
def count_zeros (slice : List Nat) (offset len : Nat) : Option Nat :=
  if len = 0 then some 0
  else
    match slice_range slice (offset / 8) ((offset + len + 7) / 8) with
    | none => none
    | some s0 =>
      let o := offset % 8
      if (o + len) / 8 = 0 then
        match s0.get? 0 with
        | none => none
        | some b0 => some (len - count_ones (((b0 >>> o) <<< (8 - len)) % 256))
      else
        let head : Option (Nat × List Nat) :=
          if o ≠ 0 then
            match s0.get? 0 with
            | none => none
            | some b0 => some (count_ones (b0 >>> o), s0.drop 1)
          else some (0, s0)
        match head with
        | none => none
        | some (c1, s1) =>
          let tail : Option (Nat × List Nat) :=
            if (o + len) % 8 ≠ 0 then
              match s1.get? (s1.length - 1) with
              | none => none
              | some bl =>
                some (count_ones ((bl <<< (8 - ((o + len) % 8))) % 256),
                  s1.take (s1.length - 1))
            else some (0, s1)
          match tail with
          | none => none
          | some (c2, s2) => some (len - (c1 + c2 + middle_sum s2))

/-- Reference view of one byte as its 8 bits, least significant first. -/
def byteBits (b : Nat) : List Bool :=
  (List.range 8).map (fun k => b.testBit k)

/-- Reference view of a byte buffer as its flat bit sequence. -/
def bitsOf (bytes : List Nat) : List Bool :=
  (bytes.map byteBits).flatten

/-- Number of set bits in the bit window `[offset, offset + len)` of a
byte buffer — the specification's `popcount_window`. -/
def popcount_window (b : List Nat) (offset len : Nat) : Nat :=
  (((bitsOf b).drop offset).take len).count true

/-- Number of set bits of `x` among bit positions `[a, a + m)`. -/
def onesIn (x a m : Nat) : Nat :=
  (List.range m).countP (fun k => x.testBit (a + k))

theorem onesIn_split (x a m n : Nat) :
    onesIn x a (m + n) = onesIn x a m + onesIn x (a + m) n := by
  unfold onesIn
  rw [List.range_add, List.countP_append, List.countP_map]
  congr 1
  apply List.countP_congr
  intro k _
  simp [Function.comp, Nat.add_assoc]

theorem onesIn_le (x a m : Nat) : onesIn x a m ≤ m := by
  unfold onesIn
  calc (List.range m).countP (fun k => x.testBit (a + k))
      ≤ (List.range m).length := List.countP_le_length _
  _ = m := List.length_range m

theorem count_ones_eq_onesIn {x m : Nat} (hx : x < 2 ^ m) (hm : m ≤ 64) :
    count_ones x = onesIn x 0 m := by
  unfold count_ones
  have h64 : 64 = m + (64 - m) := by omega
  rw [h64, List.range_add, List.countP_append, List.countP_map]
  have h1 : (List.range m).countP (fun k => x.testBit k)
      = onesIn x 0 m := by
    unfold onesIn
    apply List.countP_congr
    intro k _
    simp
  have h2 : (List.range (64 - m)).countP ((fun k => x.testBit k) ∘ (m + ·)) = 0 := by
    rw [List.countP_eq_zero]
    intro k _
    simp only [Function.comp]
    have : x < 2 ^ (m + k) :=
      lt_of_lt_of_le hx (Nat.pow_le_pow_right (by omega) (by omega))
    simp [Nat.testBit_lt_two_pow this]
  omega

theorem onesIn_shiftRight (x s a m : Nat) :
    onesIn (x >>> s) a m = onesIn x (s + a) m := by
  unfold onesIn
  apply List.countP_congr
  intro k _
  rw [Nat.testBit_shiftRight, Nat.add_assoc]

/-- Popcount of a `u8` left shift: `((y <<< s) % 256)` keeps exactly the
low `8 - s` bits of `y`, moved up by `s`. -/
theorem count_ones_shl_mod (y s : Nat) (hs : s ≤ 8) :
    count_ones ((y <<< s) % 256) = onesIn y 0 (8 - s) := by
  have h256 : (256 : Nat) = 2 ^ 8 := by norm_num
  have hz : (y <<< s) % 256 < 2 ^ 8 := by
    rw [h256]
    exact Nat.mod_lt _ (by norm_num)
  rw [count_ones_eq_onesIn hz (by norm_num)]
  have hsplit := onesIn_split ((y <<< s) % 256) 0 s (8 - s)
  have hm : s + (8 - s) = 8 := by omega
  rw [hm] at hsplit
  rw [hsplit]
  have h1 : onesIn ((y <<< s) % 256) 0 s = 0 := by
    unfold onesIn
    rw [List.countP_eq_zero]
    intro k hk
    rw [List.mem_range] at hk
    simp only [Nat.zero_add]
    rw [h256, Nat.testBit_mod_two_pow, Nat.testBit_shiftLeft]
    have hks : ¬ (s ≤ k) := by omega
    simp [hks]
  have h2 : onesIn ((y <<< s) % 256) (0 + s) (8 - s) = onesIn y 0 (8 - s) := by
    unfold onesIn
    apply List.countP_congr
    intro k hk
    rw [List.mem_range] at hk
    rw [h256, Nat.testBit_mod_two_pow, Nat.testBit_shiftLeft]
    simp only [Nat.zero_add]
    have hlt : s + k < 8 := by omega
    have hge : s ≤ s + k := by omega
    simp [hlt, hge, Nat.add_sub_cancel_left]
  omega

/-- Popcount of a `u8` right shift: the surviving bits are the bits of `x`
at positions `[o, 8)`. -/
theorem count_ones_shr (x o : Nat) (hx : x < 256) (ho : o ≤ 8) :
    count_ones (x >>> o) = onesIn x o (8 - o) := by
  have hlt : x >>> o < 2 ^ (8 - o) := by
    rw [Nat.shiftRight_eq_div_pow]
    apply Nat.div_lt_of_lt_mul
    calc x < 256 := hx
    _ = 2 ^ 8 := by norm_num
    _ = 2 ^ o * 2 ^ (8 - o) := by rw [← pow_add]; congr 1; omega
  rw [count_ones_eq_onesIn hlt (by omega), onesIn_shiftRight, Nat.add_zero]

theorem count_ones_zero : count_ones 0 = 0 := by
  unfold count_ones
  rw [List.countP_eq_zero]
  intro k _
  simp

/-- Splitting a popcount at bit `k`: the low `k` bits and the rest count
independently, provided the whole value fits in 64 bits. -/
theorem count_ones_add_mul (k a m : Nat) (ha : a < 2 ^ k)
    (htot : 2 ^ k * m + a < 2 ^ 64) :
    count_ones (2 ^ k * m + a) = count_ones a + count_ones m := by
  rcases Nat.eq_zero_or_pos m with hm0 | hm0
  · subst hm0
    simp [count_ones_zero]
  have hk64 : k < 64 := by
    by_contra hk
    push_neg at hk
    have h1 : (2 : Nat) ^ 64 ≤ 2 ^ k := Nat.pow_le_pow_right (by omega) hk
    have h2 : 2 ^ k ≤ 2 ^ k * m := Nat.le_mul_of_pos_right _ hm0
    omega
  have hm : m < 2 ^ (64 - k) := by
    by_contra hm
    push_neg at hm
    have h1 : 2 ^ k * 2 ^ (64 - k) ≤ 2 ^ k * m :=
      Nat.mul_le_mul_left _ hm
    rw [← pow_add] at h1
    have h64 : k + (64 - k) = 64 := by omega
    rw [h64] at h1
    omega
  rw [count_ones_eq_onesIn htot (le_refl _)]
  have hsplit := onesIn_split (2 ^ k * m + a) 0 k (64 - k)
  have hks : k + (64 - k) = 64 := by omega
  rw [hks] at hsplit
  rw [hsplit]
  have hlow : onesIn (2 ^ k * m + a) 0 k = onesIn a 0 k := by
    unfold onesIn
    apply List.countP_congr
    intro j hj
    rw [List.mem_range] at hj
    rw [Nat.testBit_mul_pow_two_add _ ha]
    simp only [Nat.zero_add]
    rw [if_pos hj]
  have hhigh : onesIn (2 ^ k * m + a) (0 + k) (64 - k) = onesIn m 0 (64 - k) := by
    unfold onesIn
    apply List.countP_congr
    intro j hj
    rw [Nat.testBit_mul_pow_two_add _ ha]
    rw [if_neg (by omega)]
    simp only [Nat.zero_add, Nat.add_comm k j, Nat.add_sub_cancel]
  rw [hlow, hhigh, ← count_ones_eq_onesIn ha (by omega),
    ← count_ones_eq_onesIn hm (by omega)]

theorem from_ne_bytes_lt (c : List Nat) (hb : ∀ x ∈ c, x < 256) :
    from_ne_bytes c < 2 ^ (8 * c.length) := by
  induction c with
  | nil => simp [from_ne_bytes]
  | cons b t ih =>
    have hbb : b < 256 := hb b (by simp)
    have ht := ih (fun x hx => hb x (List.mem_cons_of_mem _ hx))
    have : from_ne_bytes (b :: t) = b + 256 * from_ne_bytes t := rfl
    rw [this]
    have h8 : 8 * (b :: t).length = 8 + 8 * t.length := by
      simp [List.length_cons]
      ring
    rw [h8, pow_add]
    have h256 : (2 : Nat) ^ 8 = 256 := by norm_num
    rw [h256]
    nlinarith

/-- The 64-bit popcount of an 8-byte chunk equals the sum of the byte
popcounts. -/
theorem count_ones_from_ne_bytes (c : List Nat) (hlen : c.length ≤ 8)
    (hb : ∀ x ∈ c, x < 256) :
    count_ones (from_ne_bytes c) = (c.map (fun byte => count_ones byte)).sum := by
  induction c with
  | nil => simp [from_ne_bytes, count_ones_zero]
  | cons b t ih =>
    have hbb : b < 256 := hb b (by simp)
    have hbt : ∀ x ∈ t, x < 256 := fun x hx => hb x (List.mem_cons_of_mem _ hx)
    have hlt := from_ne_bytes_lt t hbt
    have htlen : t.length ≤ 7 := by
      have := hlen
      simp [List.length_cons] at this
      omega
    have hstep : from_ne_bytes (b :: t) = 2 ^ 8 * from_ne_bytes t + b := by
      show b + 256 * from_ne_bytes t = 2 ^ 8 * from_ne_bytes t + b
      norm_num
      omega
    have htot : 2 ^ 8 * from_ne_bytes t + b < 2 ^ 64 := by
      have h56 : (2 : Nat) ^ (8 * t.length) ≤ 2 ^ 56 :=
        Nat.pow_le_pow_right (by omega) (by omega)
      have hlt56 : from_ne_bytes t < 2 ^ 56 := lt_of_lt_of_le hlt h56
      have e1 : (2 : Nat) ^ 8 = 256 := by norm_num
      have e2 : (2 : Nat) ^ 56 = 72057594037927936 := by norm_num
      have e3 : (2 : Nat) ^ 64 = 18446744073709551616 := by norm_num
      omega
    rw [hstep, count_ones_add_mul 8 b (from_ne_bytes t) (by omega) htot]
    rw [ih (by omega) hbt]
    simp [Nat.add_comm]

theorem chunks_exact8_short (s : List Nat) (h : s.length < 8) :
    chunks_exact8 s = ([], s) := by
  match s with
  | [] => rfl
  | [a0] => rfl
  | [a0, a1] => rfl
  | [a0, a1, a2] => rfl
  | [a0, a1, a2, a3] => rfl
  | [a0, a1, a2, a3, a4] => rfl
  | [a0, a1, a2, a3, a4, a5] => rfl
  | [a0, a1, a2, a3, a4, a5, a6] => rfl
  | a0 :: a1 :: a2 :: a3 :: a4 :: a5 :: a6 :: a7 :: t =>
    simp at h
    omega

/-- The chunked popcount of the middle bytes is just the per-byte sum. -/
theorem middle_sum_eq (s : List Nat) (hb : ∀ x ∈ s, x < 256) :
    middle_sum s = (s.map (fun byte => count_ones byte)).sum := by
  match s with
  | b0 :: b1 :: b2 :: b3 :: b4 :: b5 :: b6 :: b7 :: rest =>
    have hbr : ∀ x ∈ rest, x < 256 := by
      intro x hx
      exact hb x (by simp [hx])
    have hchunk : ∀ x ∈ [b0, b1, b2, b3, b4, b5, b6, b7], x < 256 := by
      intro x hx
      simp only [List.mem_cons, List.not_mem_nil, or_false] at hx
      rcases hx with h | h | h | h | h | h | h | h <;> subst h <;>
        exact hb _ (by simp)
    have hrec := middle_sum_eq rest hbr
    have hdef : chunks_exact8 (b0 :: b1 :: b2 :: b3 :: b4 :: b5 :: b6 :: b7 :: rest)
        = ([b0, b1, b2, b3, b4, b5, b6, b7] :: (chunks_exact8 rest).1,
          (chunks_exact8 rest).2) := rfl
    unfold middle_sum
    rw [hdef]
    simp only [List.map_cons, List.sum_cons, List.map_nil, List.sum_nil]
    rw [count_ones_from_ne_bytes _ (by simp) hchunk]
    simp only [List.map_cons, List.sum_cons, List.map_nil, List.sum_nil]
    unfold middle_sum at hrec
    omega
  | [] => rfl
  | [a0] => simp [middle_sum, chunks_exact8_short, count_ones_zero]
  | [a0, a1] => simp [middle_sum, chunks_exact8_short]
  | [a0, a1, a2] => simp [middle_sum, chunks_exact8_short]
  | [a0, a1, a2, a3] => simp [middle_sum, chunks_exact8_short]
  | [a0, a1, a2, a3, a4] => simp [middle_sum, chunks_exact8_short]
  | [a0, a1, a2, a3, a4, a5] => simp [middle_sum, chunks_exact8_short]
  | [a0, a1, a2, a3, a4, a5, a6] => simp [middle_sum, chunks_exact8_short]

theorem bitsOf_cons (x : Nat) (t : List Nat) :
    bitsOf (x :: t) = byteBits x ++ bitsOf t := by
  unfold bitsOf
  rw [List.map_cons, List.flatten_cons]

theorem bitsOf_append (u v : List Nat) :
    bitsOf (u ++ v) = bitsOf u ++ bitsOf v := by
  unfold bitsOf
  rw [List.map_append, List.flatten_append]

theorem length_byteBits (x : Nat) : (byteBits x).length = 8 := by
  simp [byteBits]

theorem length_bitsOf (u : List Nat) : (bitsOf u).length = 8 * u.length := by
  induction u with
  | nil => rfl
  | cons x t ih =>
    rw [bitsOf_cons, List.length_append, length_byteBits, ih, List.length_cons]
    ring

theorem count_true_map (f : Nat → Bool) (r : List Nat) :
    (r.map f).count true = r.countP f := by
  rw [List.count_eq_countP, List.countP_map]
  apply List.countP_congr
  intro k _
  simp [Function.comp]

theorem drop_byteBits (x o : Nat) (ho : o ≤ 8) :
    (byteBits x).drop o = (List.range (8 - o)).map (fun k => x.testBit (o + k)) := by
  unfold byteBits
  rw [← List.map_drop]
  have hr : List.range 8 = List.range o ++ (List.range (8 - o)).map (o + ·) := by
    rw [← List.range_add]
    congr 1
    omega
  rw [hr, List.drop_left' (by simp), List.map_map]
  rfl

theorem count_true_drop_byteBits (x o : Nat) (ho : o ≤ 8) :
    ((byteBits x).drop o).count true = onesIn x o (8 - o) := by
  rw [drop_byteBits x o ho, count_true_map]
  rfl

theorem count_true_take_drop_byteBits (x o l : Nat) (h : o + l ≤ 8) :
    (((byteBits x).drop o).take l).count true = onesIn x o l := by
  rw [drop_byteBits x o (by omega), ← List.map_take, List.take_range, count_true_map]
  have hmin : min l (8 - o) = l := by omega
  rw [hmin]
  rfl

theorem popcount_window_single (x o l : Nat) (h : o + l ≤ 8) :
    popcount_window [x] o l = onesIn x o l := by
  unfold popcount_window
  have hb : bitsOf [x] = byteBits x := by
    rw [bitsOf_cons]
    simp [bitsOf]
  rw [hb, count_true_take_drop_byteBits x o l h]

theorem popcount_window_cons (x : Nat) (t : List Nat) (o l : Nat)
    (ho : o ≤ 8) (hl : 8 - o ≤ l) :
    popcount_window (x :: t) o l
      = onesIn x o (8 - o) + popcount_window t 0 (l - (8 - o)) := by
  unfold popcount_window
  rw [bitsOf_cons]
  rw [List.drop_append_of_le_length (by rw [length_byteBits]; exact ho)]
  rw [List.take_append_eq_append_take, List.count_append]
  have hlen : ((byteBits x).drop o).length = 8 - o := by
    rw [List.length_drop, length_byteBits]
  rw [List.take_of_length_le (by rw [hlen]; exact hl)]
  rw [count_true_drop_byteBits x o ho, hlen, List.drop_zero]

theorem popcount_window_le (b : List Nat) (o l : Nat) :
    popcount_window b o l ≤ l := by
  unfold popcount_window
  calc (((bitsOf b).drop o).take l).count true
      ≤ (((bitsOf b).drop o).take l).length := List.count_le_length _ _
  _ ≤ l := by
    rw [List.length_take]
    omega

/-- The tail-byte-plus-middle-bytes computation of `count_zeros`, in
per-byte-sum form, counts exactly the window `[0, l)` of an
`⌈l / 8⌉`-byte buffer. -/
theorem aligned_sum (t : List Nat) (l : Nat) (hb : ∀ x ∈ t, x < 256)
    (hlen : t.length = (l + 7) / 8) :
    (if l % 8 = 0 then (t.map (fun byte => count_ones byte)).sum
     else count_ones ((t.getD (t.length - 1) 0 <<< (8 - l % 8)) % 256)
       + ((t.take (t.length - 1)).map (fun byte => count_ones byte)).sum)
    = popcount_window t 0 l := by
  induction t generalizing l with
  | nil =>
    have hl0 : l = 0 := by
      simp only [List.length_nil] at hlen
      omega
    subst hl0
    simp [popcount_window, bitsOf]
  | cons x t ih =>
    have hx : x < 256 := hb x (by simp)
    have hbt : ∀ y ∈ t, y < 256 := fun y hy => hb y (List.mem_cons_of_mem _ hy)
    rcases eq_or_ne t [] with ht | ht
    · subst ht
      simp only [List.length_cons, List.length_nil] at hlen
      have hl : 1 ≤ l ∧ l ≤ 8 := by omega
      by_cases hl8 : l % 8 = 0
      · have hl8' : l = 8 := by omega
        subst hl8'
        rw [if_pos rfl]
        rw [popcount_window_single x 0 8 (by omega)]
        rw [← count_ones_eq_onesIn (show x < 2 ^ 8 by norm_num1; omega) (by omega)]
        simp
      · rw [if_neg hl8]
        have hll : l < 8 := by omega
        have hml : l % 8 = l := Nat.mod_eq_of_lt hll
        rw [hml]
        simp only [List.length_cons, List.length_nil, Nat.zero_add,
          Nat.sub_self, List.getD_cons_zero, List.take_zero, List.map_nil,
          List.sum_nil, Nat.add_zero]
        rw [count_ones_shl_mod x (8 - l) (by omega)]
        have h8l : 8 - (8 - l) = l := by omega
        rw [h8l, popcount_window_single x 0 l (by omega)]
    · have htl : 1 ≤ t.length := List.length_pos.mpr ht
      have hlen' : t.length + 1 = (l + 7) / 8 := by
        simpa using hlen
      have hl9 : 9 ≤ l := by omega
      have hW : popcount_window (x :: t) 0 l
          = onesIn x 0 8 + popcount_window t 0 (l - 8) := by
        have := popcount_window_cons x t 0 l (by omega) (by omega)
        simpa using this
      have hco : onesIn x 0 8 = count_ones x := by
        rw [← count_ones_eq_onesIn (show x < 2 ^ 8 by norm_num1; omega) (by omega)]
      have hIH := ih (l - 8) hbt (by omega)
      have hmod : l % 8 = (l - 8) % 8 := by omega
      have hlc : (x :: t).length - 1 = t.length := by simp
      have ht1 : t.length = (t.length - 1) + 1 := by omega
      by_cases hl8 : l % 8 = 0
      · rw [if_pos hl8]
        rw [if_pos (by omega)] at hIH
        rw [List.map_cons, List.sum_cons, hW, hco, hIH]
      · rw [if_neg hl8]
        rw [if_neg (by omega)] at hIH
        rw [← hmod] at hIH
        have hgd : (x :: t).getD ((x :: t).length - 1) 0 = t.getD (t.length - 1) 0 := by
          rw [hlc]
          conv_lhs => rw [ht1]
          rw [List.getD_cons_succ]
        have htake : (x :: t).take ((x :: t).length - 1) = x :: t.take (t.length - 1) := by
          rw [hlc]
          conv_lhs => rw [ht1]
          rw [List.take_succ_cons]
        rw [hgd, htake, List.map_cons, List.sum_cons, hW, hco, ← hIH]
        omega

theorem window_of_append_left (X Y : List Bool) (o l : Nat) (h : o + l ≤ X.length) :
    ((X ++ Y).drop o).take l = (X.drop o).take l := by
  rw [List.drop_append_of_le_length (by omega),
    List.take_append_of_le_length (by rw [List.length_drop]; omega)]

theorem drop_offset_of_append (X Y : List Bool) (offset : Nat)
    (hX : X.length = 8 * (offset / 8)) :
    (X ++ Y).drop offset = Y.drop (offset % 8) := by
  have h1 : offset = X.length + offset % 8 := by omega
  conv_lhs => rw [h1]
  exact List.drop_append _

/-- Reducing a window popcount over the whole buffer to one over the byte
sub-slice `[offset / 8, ⌈(offset + len) / 8⌉)` that `count_zeros` works on. -/
theorem popcount_window_slice (b : List Nat) (offset len : Nat)
    (hlen : offset + len ≤ 8 * b.length) :
    popcount_window b offset len
      = popcount_window
          ((b.drop (offset / 8)).take ((offset + len + 7) / 8 - offset / 8))
          (offset % 8) len := by
  have ha : offset / 8 ≤ b.length := by omega
  have hbnd : (offset + len + 7) / 8 ≤ b.length := by omega
  unfold popcount_window
  conv_lhs => rw [← List.take_append_drop (offset / 8) b]
  rw [bitsOf_append]
  rw [drop_offset_of_append _ _ _ (by
    rw [length_bitsOf, List.length_take]
    omega)]
  have hsplit : bitsOf (b.drop (offset / 8))
      = bitsOf ((b.drop (offset / 8)).take ((offset + len + 7) / 8 - offset / 8))
        ++ bitsOf ((b.drop (offset / 8)).drop ((offset + len + 7) / 8 - offset / 8)) := by
    rw [← bitsOf_append, List.take_append_drop]
  rw [hsplit]
  rw [window_of_append_left _ _ _ _ ?hb]
  case hb =>
    rw [length_bitsOf, List.length_take, List.length_drop]
    have hmin : min ((offset + len + 7) / 8 - offset / 8) (b.length - offset / 8)
        = (offset + len + 7) / 8 - offset / 8 := by omega
    rw [hmin]
    omega

theorem middle_sum_window_zero (t : List Nat) (l : Nat) (hb : ∀ x ∈ t, x < 256)
    (hlen : t.length = (l + 7) / 8) (hl8 : l % 8 = 0) :
    middle_sum t = popcount_window t 0 l := by
  have hal := aligned_sum t l hb hlen
  rw [if_pos hl8] at hal
  rw [middle_sum_eq t hb]
  exact hal

theorem tail_middle_sum_window (t : List Nat) (l bl : Nat) (hb : ∀ x ∈ t, x < 256)
    (hlen : t.length = (l + 7) / 8) (hl8 : l % 8 ≠ 0)
    (hget : t[t.length - 1]? = some bl) :
    count_ones ((bl <<< (8 - l % 8)) % 256) + middle_sum (t.take (t.length - 1))
      = popcount_window t 0 l := by
  have hal := aligned_sum t l hb hlen
  rw [if_neg hl8] at hal
  have hgd : t.getD (t.length - 1) 0 = bl := by
    rw [List.getD_eq_getElem?_getD, hget]
    rfl
  rw [hgd] at hal
  rw [middle_sum_eq _ (fun x hx => hb x (List.mem_of_mem_take hx))]
  exact hal

theorem count_zeros_spec (b : List Nat) (offset len : Nat)
    (hb : ∀ x ∈ b, x < 256) (hlen : offset + len ≤ 8 * b.length) :
    ∃ n, count_zeros b offset len = some n
      ∧ n + popcount_window b offset len = len := by
  rcases eq_or_ne len 0 with h0 | h0
  · subst h0
    refine ⟨0, by simp [count_zeros], ?_⟩
    simp [popcount_window]
  have hbnd : (offset + len + 7) / 8 ≤ b.length := by omega
  have hsr : slice_range b (offset / 8) ((offset + len + 7) / 8)
      = some ((b.drop (offset / 8)).take ((offset + len + 7) / 8 - offset / 8)) := by
    unfold slice_range
    rw [if_pos ⟨by omega, hbnd⟩]
  set s0 : List Nat :=
    (b.drop (offset / 8)).take ((offset + len + 7) / 8 - offset / 8) with hs0def
  have hs0len : s0.length = (offset % 8 + len + 7) / 8 := by
    rw [hs0def, List.length_take, List.length_drop]
    omega
  have hs0b : ∀ x ∈ s0, x < 256 := by
    intro x hx
    rw [hs0def] at hx
    exact hb x (List.mem_of_mem_drop (List.mem_of_mem_take hx))
  have hWs : popcount_window b offset len = popcount_window s0 (offset % 8) len := by
    rw [hs0def]
    exact popcount_window_slice b offset len hlen
  by_cases hsb : (offset % 8 + len) / 8 = 0
  · -- window within a single byte
    have hl8 : offset % 8 + len ≤ 7 := by omega
    have hs01 : s0.length = 1 := by omega
    obtain ⟨x, hx⟩ := List.length_eq_one.mp hs01
    have hget : s0[0]? = some x := by rw [hx]; simp
    have hcz : count_zeros b offset len
        = some (len - count_ones (((x >>> (offset % 8)) <<< (8 - len)) % 256)) := by
      simp [count_zeros, h0, hsr, hsb, hget]
    have hc : count_ones (((x >>> (offset % 8)) <<< (8 - len)) % 256)
        = onesIn x (offset % 8) len := by
      rw [count_ones_shl_mod _ _ (by omega)]
      have h8 : 8 - (8 - len) = len := by omega
      rw [h8, onesIn_shiftRight, Nat.add_zero]
    have hwin : popcount_window b offset len = onesIn x (offset % 8) len := by
      rw [hWs, hx, popcount_window_single _ _ _ (by omega)]
    refine ⟨_, hcz, ?_⟩
    rw [hwin, hc]
    have := onesIn_le x (offset % 8) len
    omega
  · -- window spans several bytes
    have h8le : 8 ≤ offset % 8 + len := by omega
    have hs0pos : 1 ≤ s0.length := by omega
    have hWle : popcount_window s0 (offset % 8) len ≤ len := popcount_window_le _ _ _
    by_cases ho : offset % 8 = 0
    · -- no leading partial byte
      have hs0len' : s0.length = (len + 7) / 8 := by omega
      have hsb' : ¬ len / 8 = 0 := by omega
      by_cases he : len % 8 = 0
      · -- no trailing partial byte either
        have hmid := middle_sum_window_zero s0 len hs0b hs0len' he
        have hcz : count_zeros b offset len = some (len - middle_sum s0) := by
          simp [count_zeros, h0, hsr, hsb', ho, he]
        refine ⟨_, hcz, ?_⟩
        rw [ho] at hWs hWle
        omega
      · -- trailing partial byte
        obtain ⟨bl, hbl⟩ : ∃ bl, s0[s0.length - 1]? = some bl :=
          ⟨_, List.getElem?_eq_getElem (by omega)⟩
        have htail := tail_middle_sum_window s0 len bl hs0b hs0len' he hbl
        have hcz : count_zeros b offset len
            = some (len - (count_ones ((bl <<< (8 - len % 8)) % 256)
                + middle_sum (s0.take (s0.length - 1)))) := by
          simp [count_zeros, h0, hsr, hsb', ho, he, hbl]
        refine ⟨_, hcz, ?_⟩
        rw [ho] at hWs hWle
        omega
    · -- leading partial byte present
      obtain ⟨x, t, hx⟩ :=
        List.exists_cons_of_ne_nil (List.length_pos.mp (by omega : 0 < s0.length))
      have hxlt : x < 256 := hs0b x (by rw [hx]; simp)
      have hget0 : s0[0]? = some x := by rw [hx]; simp
      have hdrop1 : s0.drop 1 = t := by rw [hx]; rfl
      have htb : ∀ y ∈ t, y < 256 := fun y hy => hs0b y (by rw [hx]; simp [hy])
      have hs0tl : s0.length = t.length + 1 := by rw [hx]; rfl
      have htlen : t.length = ((len - (8 - offset % 8)) + 7) / 8 := by omega
      have hWcons : popcount_window s0 (offset % 8) len
          = onesIn x (offset % 8) (8 - offset % 8)
            + popcount_window t 0 (len - (8 - offset % 8)) := by
        rw [hx]
        exact popcount_window_cons x t _ len (by omega) (by omega)
      have hc1 : count_ones (x >>> (offset % 8))
          = onesIn x (offset % 8) (8 - offset % 8) :=
        count_ones_shr x _ hxlt (by omega)
      have hmod : (offset % 8 + len) % 8 = (len - (8 - offset % 8)) % 8 := by omega
      by_cases he : (offset % 8 + len) % 8 = 0
      · have hmid := middle_sum_window_zero t (len - (8 - offset % 8)) htb htlen
          (by omega)
        have hcz : count_zeros b offset len
            = some (len - (count_ones (x >>> (offset % 8)) + middle_sum t)) := by
          simp [count_zeros, h0, hsr, hsb, ho, hget0, hdrop1, he]
        refine ⟨_, hcz, ?_⟩
        omega
      · have htpos : 1 ≤ t.length := by omega
        obtain ⟨bl, hbl⟩ : ∃ bl, t[t.length - 1]? = some bl :=
          ⟨_, List.getElem?_eq_getElem (by omega)⟩
        have htail := tail_middle_sum_window t (len - (8 - offset % 8)) bl htb htlen
          (by omega) hbl
        rw [← hmod] at htail
        have he' : ¬ (offset + len) % 8 = 0 := by omega
        have hcz : count_zeros b offset len
            = some (len - (count_ones (x >>> (offset % 8))
                + count_ones ((bl <<< (8 - (offset % 8 + len) % 8)) % 256)
                + middle_sum (t.take (t.length - 1)))) := by
          simp [count_zeros, h0, hsr, hsb, ho, hget0, hdrop1, he, he', hbl]
        refine ⟨_, hcz, ?_⟩
        omega

theorem BIT_MASK_get (j : Nat) (hj : j < 8) : BIT_MASK.get? j = some (2 ^ j) := by
  interval_cases j <;> rfl

theorem UNSET_BIT_MASK_get (j : Nat) (hj : j < 8) :
    UNSET_BIT_MASK.get? j = some (255 - 2 ^ j) := by
  interval_cases j <;> rfl

theorem decide_and_two_pow (x m : Nat) :
    decide (x &&& 2 ^ m ≠ 0) = x.testBit m := by
  rw [Nat.and_two_pow]
  cases h : x.testBit m <;> simp [h]

theorem testBit_unset_mask (k m : Nat) (hk : k < 8) (hm : m < 8) :
    (255 - 2 ^ k).testBit m = decide (m ≠ k) := by
  interval_cases k <;> interval_cases m <;> decide

theorem set_eq (bv k : Nat) (v : Bool) (hk : k < 8) :
    set bv k v = some (if v then bv ||| 2 ^ k else bv &&& (255 - 2 ^ k)) := by
  unfold set
  cases v
  · rw [UNSET_BIT_MASK_get k hk]
    rfl
  · rw [BIT_MASK_get k hk]
    rfl

theorem is_set_eq (bv k : Nat) (hk : k < 8) :
    is_set bv k = some (bv.testBit k) := by
  unfold is_set
  rw [BIT_MASK_get k hk]
  show some (decide (bv &&& 2 ^ k ≠ 0)) = some (bv.testBit k)
  rw [decide_and_two_pow]

/-- The byte produced by `set` has bit `k` equal to `v` and every other
bit of the low byte unchanged. -/
theorem set_testBit (bv k m : Nat) (v : Bool) (hk : k < 8) (hm : m < 8) :
    (if v then bv ||| 2 ^ k else bv &&& (255 - 2 ^ k)).testBit m
      = if m = k then v else bv.testBit m := by
  cases v
  · simp only [if_false, Bool.false_eq_true]
    rw [Nat.testBit_and, testBit_unset_mask k m hk hm]
    rcases eq_or_ne m k with h | h
    · simp [h]
    · simp [h]
  · simp only [if_true]
    rw [Nat.testBit_or, Nat.testBit_two_pow]
    rcases eq_or_ne m k with h | h
    · simp [h]
    · simp [h, Ne.symm h]

/-- C8: for every in-bounds bit position `i` and value `v`, `set_bit`
succeeds, `get_bit` at `i` then reads back `v`, and `get_bit` at every
other in-bounds position is unchanged. -/
theorem set_bit_get_bit_roundtrip (data : List Nat) (i : Nat) (v : Bool)
    (h : i < 8 * data.length) :
    ∃ d', set_bit data i v = some d'
      ∧ get_bit d' i = some v
      ∧ ∀ j, j < 8 * data.length → j ≠ i → get_bit d' j = get_bit data j := by
  have hib : i / 8 < data.length := by omega
  obtain ⟨bv, hbv⟩ : ∃ bv, data.get? (i / 8) = some bv := ⟨_, List.get?_eq_get hib⟩
  have him : i % 8 < 8 := by omega
  have hsb : set_bit data i v
      = some (data.set (i / 8)
          (if v then bv ||| 2 ^ (i % 8) else bv &&& (255 - 2 ^ (i % 8)))) := by
    unfold set_bit
    rw [hbv]
    show Option.map (fun nb => data.set (i / 8) nb) (set bv (i % 8) v) = _
    rw [set_eq bv (i % 8) v him]
    rfl
  refine ⟨_, hsb, ?_, ?_⟩
  · unfold get_bit
    have h1 : (data.set (i / 8)
        (if v then bv ||| 2 ^ (i % 8) else bv &&& (255 - 2 ^ (i % 8)))).get? (i / 8)
        = some (if v then bv ||| 2 ^ (i % 8) else bv &&& (255 - 2 ^ (i % 8))) := by
      rw [List.get?_eq_getElem?]
      exact List.getElem?_set_self (by simpa using hib)
    rw [h1]
    show is_set _ (i % 8) = some v
    rw [is_set_eq _ _ him, set_testBit bv (i % 8) (i % 8) v him him]
    simp
  · intro j hj hji
    have hjm : j % 8 < 8 := by omega
    unfold get_bit
    rcases eq_or_ne (j / 8) (i / 8) with hjd | hjd
    · have hne : j % 8 ≠ i % 8 := by omega
      have h1 : (data.set (i / 8)
          (if v then bv ||| 2 ^ (i % 8) else bv &&& (255 - 2 ^ (i % 8)))).get? (j / 8)
          = some (if v then bv ||| 2 ^ (i % 8) else bv &&& (255 - 2 ^ (i % 8))) := by
        rw [hjd, List.get?_eq_getElem?]
        exact List.getElem?_set_self (by simpa using hib)
      rw [h1, hjd, hbv]
      show is_set _ (j % 8) = is_set bv (j % 8)
      rw [is_set_eq _ _ hjm, is_set_eq bv _ hjm,
        set_testBit bv (i % 8) (j % 8) v him hjm, if_neg hne]
    · have h1 : (data.set (i / 8)
          (if v then bv ||| 2 ^ (i % 8) else bv &&& (255 - 2 ^ (i % 8)))).get? (j / 8)
          = data.get? (j / 8) := by
        rw [List.get?_eq_getElem?, List.get?_eq_getElem?]
        exact List.getElem?_set_ne (Ne.symm hjd)
      rw [h1]

/-- C8 witness: a concrete round trip through `set_bit` and `get_bit`. -/
theorem set_bit_get_bit_roundtrip_witness :
    ∃ d', set_bit [240, 15] 5 false = some d'
      ∧ get_bit d' 5 = some false
      ∧ ∀ j, j < 8 * ([240, 15] : List Nat).length → j ≠ 5 →
          get_bit d' j = get_bit [240, 15] j :=
  set_bit_get_bit_roundtrip [240, 15] 5 false (by decide)

/-- C7: `count_zeros` never panics on an in-bounds window and its value
plus the number of set bits in the window is exactly `len`; a zero-length
window always counts zero zeros. -/
theorem count_zeros_complements_window (b : List Nat) (offset len : Nat)
    (hb : ∀ x ∈ b, x < 256) (hlen : offset + len ≤ 8 * b.length) :
    (∃ n, count_zeros b offset len = some n
        ∧ n + popcount_window b offset len = len)
    ∧ count_zeros b offset 0 = some 0 :=
  ⟨count_zeros_spec b offset len hb hlen, by simp [count_zeros]⟩

/-- C7 witness: the window property at a concrete buffer and window. -/
theorem count_zeros_complements_window_witness :
    (∃ n, count_zeros [240, 15] 3 9 = some n
        ∧ n + popcount_window [240, 15] 3 9 = 9)
    ∧ count_zeros [240, 15] 3 0 = some 0 :=
  count_zeros_complements_window [240, 15] 3 9 (by decide) (by decide)

/-- C9 counterexample: `count_zeros([0b1111_0000, 0b0000_1111], 4, 8)` is
not `4` — bits are addressed least-significant first, so the window
`[4, 12)` covers the set high nibble of the first byte and the set low
nibble of the second. -/
theorem count_zeros_cross_byte_ne_four :
    ¬ (count_zeros [240, 15] 4 8 = some 4) := by decide

/-- C9 (amended): `count_zeros([0b1111_0000, 0b0000_1111], 4, 8) = 0` —
every bit of the cross-byte window `[4, 12)` is set under the LSB-first
bit order, so the window holds no zeros. -/
theorem count_zeros_cross_byte_example :
    count_zeros [240, 15] 4 8 = some 0 := by decide

/-- C10: `set_bit` and `get_bit` do not panic for any bit position
`i < 8 * data.len()` (the in-bounds condition really is `i / 8 < data.len()`,
not the `i < data.len() / 8` stated in the source doc comment), and
`is_set` / `set` do not panic for any bit index `j < 8`. -/
theorem bit_accessors_no_panic (data : List Nat) (i : Nat) (v : Bool)
    (byte j : Nat) (hi : i < 8 * data.length) (hj : j < 8) :
    (set_bit data i v).isSome ∧ (get_bit data i).isSome
      ∧ (is_set byte j).isSome ∧ (set byte j v).isSome := by
  have hib : i / 8 < data.length := by omega
  obtain ⟨bv, hbv⟩ : ∃ bv, data.get? (i / 8) = some bv := ⟨_, List.get?_eq_get hib⟩
  have him : i % 8 < 8 := by omega
  refine ⟨?_, ?_, ?_, ?_⟩
  · unfold set_bit
    rw [hbv]
    show (Option.map (fun nb => data.set (i / 8) nb) (set bv (i % 8) v)).isSome = true
    rw [set_eq bv (i % 8) v him]
    rfl
  · unfold get_bit
    rw [hbv]
    show (is_set bv (i % 8)).isSome = true
    rw [is_set_eq bv (i % 8) him]
    rfl
  · rw [is_set_eq byte j hj]
    rfl
  · rw [set_eq byte j v hj]
    rfl

/-- C10 witness: the accessors succeed at a concrete in-bounds input. -/
theorem bit_accessors_no_panic_witness :
    (set_bit [240, 15] 12 true).isSome ∧ (get_bit [240, 15] 12).isSome
      ∧ (is_set 77 6).isSome ∧ (set 77 6 true).isSome :=
  bit_accessors_no_panic [240, 15] 12 true 77 6 (by decide) (by decide)


end Bitmap

namespace Pruning

/-- `Location = (String, u64)`: path and format version of a stored file. -/
abbrev Location := String × Nat

abbrev SegmentIndex := Nat

abbrev BlockIndex := Nat

/-- The fields of `BlockMeta` that the executor reads.  `Stats` abstracts
the per-column statistics type, which the executor only passes through to
the range pruner. -/
structure BlockMeta (Stats : Type) where
  row_count : Nat
  col_stats : Stats
  bloom_filter_index_location : Option Location
  bloom_filter_index_size : Nat
deriving Repr, DecidableEq

/-- The segment summary: column statistics plus total row count. -/
structure Statistics (Stats : Type) where
  col_stats : Stats
  row_count : Nat
deriving Repr, DecidableEq

/-- `SegmentInfo`: summary plus the ordered block metadata list. -/
structure SegmentInfo (Stats : Type) where
  summary : Statistics Stats
  blocks : List (BlockMeta Stats)
deriving Repr, DecidableEq

/-- The fields of the push-down `Extras` that `prune` reads. -/
structure Extras (Expr : Type) where
  filters : List Expr
  limit : Option Nat
  order_by : List Expr
deriving Repr, DecidableEq

/-- `TableSnapshot`: the ordered segment locations. -/
structure TableSnapshot where
  segments : List Location
deriving Repr, DecidableEq

/-- Modelled from the spec: `LimiterPruner` (pruning/limiter.rs is not in
the sources).  State is an atomic `remaining` row budget, `none` meaning
unbounded.  The concurrent shared counter is modelled by threading the
state through the (deterministic, spawn-order) execution. -/
structure LimiterPruner where
  remaining : Option Nat
deriving Repr, DecidableEq

/-- Modelled from the spec: `new_limiter(limit)` — an unlimited limiter
when `limit` is `none`. -/
def new_limiter (limit : Option Nat) : LimiterPruner := ⟨limit⟩

/-- Modelled from the spec: `exceeded()` is true iff bounded and the
remaining budget is zero. -/
def LimiterPruner.exceeded (l : LimiterPruner) : Bool :=
  match l.remaining with
  | none => false
  | some r => decide (r = 0)

/-- Modelled from the spec: `within_limit(row_count)` reserves up to
`row_count` rows, decrementing `remaining` by `min remaining row_count`,
and grants credit iff `remaining` was positive before the decrement.
Returns the grant decision and the updated state. -/
def LimiterPruner.within_limit (l : LimiterPruner) (row_count : Nat) :
    Bool × LimiterPruner :=
  match l.remaining with
  | none => (true, l)
  | some r => (decide (0 < r), ⟨some (r - min r row_count)⟩)

/-- The executor's collaborators, abstracted: the compiled range filter,
the bloom filter pruner (modelled from the spec as fallible — pruner.rs is
not in the sources; per spec §4.3/§7 a failed index read propagates as an
error), the segment metadata reader, and the top-N pruner (topn_pruner.rs
is not in the sources; the schema is captured inside the closure). -/
structure PruneEnv (Stats Expr Err : Type) where
  range_should_keep : Stats → Nat → Bool
  bloom_should_keep : Option Location → Nat → Except Err Bool
  segment_read : Location → Except Err (SegmentInfo Stats)
  topn_prune : List Expr → Nat → List (SegmentIndex × BlockMeta Stats) →
    Except Err (List (SegmentIndex × BlockMeta Stats))

variable {Stats Expr Err : Type}

/-- `prune_blocks` (source lines 287–303): grant row credit first, and only
then consult the bloom pruner (`&&` short-circuits).  Instrumentation for
verification: besides the task result, returns the updated limiter state
and the issued bloom fetch (`none` when the limiter short-circuited and no
fetch was issued). -/
def prune_blocks (env : PruneEnv Stats Expr Err)
    (index_location : Option Location) (index_size : Nat)
    (limiter : LimiterPruner) (block_idx : BlockIndex) (row_count : Nat) :
    Except Err (BlockIndex × Bool) × LimiterPruner × Option (Except Err Bool) :=
  match limiter.within_limit row_count with
  | (true, limiter1) =>
    match env.bloom_should_keep index_location index_size with
    | Except.ok true => (Except.ok (block_idx, true), limiter1, some (Except.ok true))
    | Except.ok false => (Except.ok (block_idx, false), limiter1, some (Except.ok false))
    | Except.error e => (Except.error e, limiter1, some (Except.error e))
  | (false, limiter1) => (Except.ok (block_idx, false), limiter1, none)

/-- The per-block loop of `prune_segment` (source lines 236–273), run in
spawn order: skip range-rejected blocks, spawn (here: run) `prune_blocks`
for the kept ones, and stop — discarding nothing yet collected, since
collection happens only after the join — as soon as the limiter is
exhausted.  Returns the final limiter state, the spawned tasks' results in
spawn order, the issued bloom fetches, and whether the loop exited early. -/
def prune_segment_loop (env : PruneEnv Stats Expr Err)
    (blocks : List (BlockIndex × BlockMeta Stats)) (limiter : LimiterPruner) :
    LimiterPruner × List (Except Err (BlockIndex × Bool))
      × List (Except Err Bool) × Bool :=
  match blocks with
  | [] => (limiter, [], [], false)
  | (block_idx, block_meta) :: rest =>
    if limiter.exceeded then (limiter, [], [], true)
    else if env.range_should_keep block_meta.col_stats block_meta.row_count then
      match prune_blocks env block_meta.bloom_filter_index_location
          block_meta.bloom_filter_index_size limiter block_idx
          block_meta.row_count with
      | (outcome, limiter1, fetch) =>
        match prune_segment_loop env rest limiter1 with
        | (limiter2, outs, fets, ex) =>
          (limiter2, outcome :: outs,
            (match fetch with | some f => f :: fets | none => fets), ex)
    else prune_segment_loop env rest limiter

/-- `try_join_all` + `collect::<Result<_>>` / the `item?` loop: the first
error in order wins, otherwise all payloads in order. -/
def collectExcept {α : Type} : List (Except Err α) → Except Err (List α)
  | [] => Except.ok []
  | Except.error e :: _ => Except.error e
  | Except.ok x :: rest => (collectExcept rest).map (fun l => x :: l)

/-- The result of one `prune_segment` task, with instrumentation: the
threaded limiter state, the spawned block tasks' outcomes, the issued
bloom fetches, and whether the block loop exited early on an exhausted
limiter (returning the — necessarily still empty — `result` vector and
dropping the spawned task handles). -/
structure SegRun (Stats Err : Type) where
  result : Except Err (List (SegmentIndex × BlockMeta Stats))
  limiter : LimiterPruner
  outcomes : List (Except Err (BlockIndex × Bool))
  fetches : List (Except Err Bool)
  early_exit : Bool

/-- `prune_segment` (source lines 209–286): check the limit, read the
segment, apply the segment-level range filter, run the block loop, join
the block tasks (first error wins), and map kept `(block_idx, true)`
outcomes to `(segment_idx, blocks[block_idx])`. -/
def prune_segment (env : PruneEnv Stats Expr Err) (segment_idx : SegmentIndex)
    (location : Location) (limiter : LimiterPruner) : SegRun Stats Err :=
  if limiter.exceeded then
    { result := Except.ok [], limiter := limiter, outcomes := [], fetches := [],
      early_exit := false }
  else
    match env.segment_read location with
    | Except.error e =>
      { result := Except.error e, limiter := limiter, outcomes := [], fetches := [],
        early_exit := false }
    | Except.ok segment_info =>
      if env.range_should_keep segment_info.summary.col_stats
          segment_info.summary.row_count then
        match prune_segment_loop env segment_info.blocks.enum limiter with
        | (limiter1, outs, fets, ex) =>
          if ex then
            { result := Except.ok [], limiter := limiter1, outcomes := outs,
              fetches := fets, early_exit := true }
          else
            match collectExcept outs with
            | Except.error e =>
              { result := Except.error e, limiter := limiter1, outcomes := outs,
                fetches := fets, early_exit := false }
            | Except.ok pairs =>
              { result := Except.ok (pairs.filterMap (fun p =>
                  if p.2 then
                    (segment_info.blocks.get? p.1).map
                      (fun blk => (segment_idx, blk))
                  else none)),
                limiter := limiter1, outcomes := outs, fetches := fets,
                early_exit := false }
      else
        { result := Except.ok [], limiter := limiter, outcomes := [], fetches := [],
          early_exit := false }

/-- The segment fan-out of `prune` (source lines 138–172), in spawn order,
threading the shared limiter.  Returns each segment task's result, the
final limiter state, and all issued bloom fetches. -/
def prune_segments_fold (env : PruneEnv Stats Expr Err) :
    List (SegmentIndex × Location) → LimiterPruner →
    List (Except Err (List (SegmentIndex × BlockMeta Stats)))
      × LimiterPruner × List (Except Err Bool)
  | [], limiter => ([], limiter, [])
  | (segment_idx, location) :: rest, limiter =>
    let r := prune_segment env segment_idx location limiter
    match prune_segments_fold env rest r.limiter with
    | (results, limiter1, fetches) =>
      (r.result :: results, limiter1, r.fetches ++ fetches)

/-- The limit handed to the row-limit gate (source lines 82–85):
`push_down.as_ref().filter(|p| p.order_by.is_empty()).and_then(|p| p.limit)`. -/
def pushed_limit (push_down : Option (Extras Expr)) : Option Nat :=
  match push_down with
  | some p => if p.order_by.isEmpty then p.limit else none
  | none => none

/-- The post-aggregation top-N stage of `prune` (source lines 194–206):
when `order_by` is non-empty and `limit` is present, hand the flat list to
the top-N pruner; otherwise return it unchanged.  The second component
records whether the top-N pruner was invoked. -/
def apply_topn (env : PruneEnv Stats Expr Err) (push_down : Option (Extras Expr))
    (metas : List (SegmentIndex × BlockMeta Stats)) :
    Except Err (List (SegmentIndex × BlockMeta Stats)) × Bool :=
  match push_down with
  | some p =>
    match p.limit with
    | some l =>
      if p.order_by.isEmpty then (Except.ok metas, false)
      else (env.topn_prune p.order_by l metas, true)
    | none => (Except.ok metas, false)
  | none => (Except.ok metas, false)

/-- The observable effects of one `prune` call.  `metas` is the flat
pre-top-N collection; `limiter_limit`, `semaphore_permits` and `warned`
record the limit given to the gate, the semaphore size, and whether the
too-low-setting warning fired (`none` on the empty-snapshot early return,
which happens before any of them exist). -/
structure PruneRun (Stats Err : Type) where
  result : Except Err (List (SegmentIndex × BlockMeta Stats))
  metas : Except Err (List (SegmentIndex × BlockMeta Stats))
  limiter_limit : Option (Option Nat)
  semaphore_permits : Option Nat
  warned : Option Bool
  topn_invoked : Bool
  fetches : List (Except Err Bool)

/-- `prune` (source lines 69–207): early-return on an empty snapshot;
build the limiter from the pushed-down limit (ignored when `order_by` is
non-empty); raise the concurrency budget to at least 10, warning if
raised; prune every segment in spawn order; collect (first error wins)
and flatten; then apply the top-N stage when ordering and limit are both
pushed down. -/
def prune (env : PruneEnv Stats Expr Err) (snapshot : TableSnapshot)
    (push_down : Option (Extras Expr)) (max_concurrent_prune_setting : Nat) :
    PruneRun Stats Err :=
  if snapshot.segments.isEmpty then
    { result := Except.ok [], metas := Except.ok [], limiter_limit := none,
      semaphore_permits := none, warned := none, topn_invoked := false,
      fetches := [] }
  else
    let limit := pushed_limit push_down
    let limiter := new_limiter limit
    let max_concurrent_prune := max max_concurrent_prune_setting 10
    let warned := decide (max_concurrent_prune > max_concurrent_prune_setting)
    match prune_segments_fold env snapshot.segments.enum limiter with
    | (results, _, fetches) =>
      match (collectExcept results).map List.flatten with
      | Except.error e =>
        { result := Except.error e, metas := Except.error e,
          limiter_limit := some limit,
          semaphore_permits := some max_concurrent_prune,
          warned := some warned, topn_invoked := false, fetches := fetches }
      | Except.ok metas =>
        match apply_topn env push_down metas with
        | (result, invoked) =>
          { result := result, metas := Except.ok metas,
            limiter_limit := some limit,
            semaphore_permits := some max_concurrent_prune,
            warned := some warned, topn_invoked := invoked, fetches := fetches }

/-- C2: a block task grants-and-tests in short-circuit order: the result is
`(block_idx, within_limit && should_keep)` whenever the bloom pruner
answers, the limiter is consulted first, and when it denies credit the
result is `(block_idx, false)` with no bloom fetch issued; when it grants
credit the fetch is issued exactly once. -/
theorem prune_blocks_spec (env : PruneEnv Stats Expr Err)
    (index_location : Option Location) (index_size : Nat)
    (limiter : LimiterPruner) (block_idx row_count : Nat) :
    (∀ b, env.bloom_should_keep index_location index_size = Except.ok b →
      (prune_blocks env index_location index_size limiter block_idx row_count).1
        = Except.ok (block_idx, (limiter.within_limit row_count).1 && b))
    ∧ ((limiter.within_limit row_count).1 = false →
      (prune_blocks env index_location index_size limiter block_idx row_count).1
          = Except.ok (block_idx, false)
        ∧ (prune_blocks env index_location index_size limiter block_idx
            row_count).2.2 = none)
    ∧ ((limiter.within_limit row_count).1 = true →
      (prune_blocks env index_location index_size limiter block_idx row_count).2.2
        = some (env.bloom_should_keep index_location index_size)) := by
  unfold prune_blocks
  rcases hw : limiter.within_limit row_count with ⟨w, limiter1⟩
  cases w
  · refine ⟨?_, ?_, ?_⟩
    · intro b _
      simp
    · intro _
      exact ⟨rfl, rfl⟩
    · intro hcontra
      simp at hcontra
  · refine ⟨?_, ?_, ?_⟩
    · intro b hb
      rw [hb]
      cases b <;> rfl
    · intro hcontra
      simp at hcontra
    · intro _
      cases hb : env.bloom_should_keep index_location index_size with
      | ok b => cases b <;> rfl
      | error e => rfl

/-- C2 witness: with one row of budget, the limiter grants, the fetch is
issued, and the block is kept. -/
theorem prune_blocks_spec_witness :
    (∀ b, (PruneEnv.mk (fun (_ : Nat) _ => true) (fun _ _ => Except.ok true)
        (fun _ => Except.error (0 : Nat)) (fun (_ : List Nat) _ xs => Except.ok xs)).bloom_should_keep
        none 0 = Except.ok b →
      (prune_blocks (PruneEnv.mk (fun (_ : Nat) _ => true) (fun _ _ => Except.ok true)
        (fun _ => Except.error (0 : Nat)) (fun (_ : List Nat) _ xs => Except.ok xs))
        none 0 (new_limiter (some 1)) 3 5).1
        = Except.ok (3, ((new_limiter (some 1)).within_limit 5).1 && b))
    ∧ (((new_limiter (some 1)).within_limit 5).1 = false →
      (prune_blocks (PruneEnv.mk (fun (_ : Nat) _ => true) (fun _ _ => Except.ok true)
        (fun _ => Except.error (0 : Nat)) (fun (_ : List Nat) _ xs => Except.ok xs))
        none 0 (new_limiter (some 1)) 3 5).1 = Except.ok (3, false)
        ∧ (prune_blocks (PruneEnv.mk (fun (_ : Nat) _ => true) (fun _ _ => Except.ok true)
          (fun _ => Except.error (0 : Nat)) (fun (_ : List Nat) _ xs => Except.ok xs))
          none 0 (new_limiter (some 1)) 3 5).2.2 = none)
    ∧ (((new_limiter (some 1)).within_limit 5).1 = true →
      (prune_blocks (PruneEnv.mk (fun (_ : Nat) _ => true) (fun _ _ => Except.ok true)
        (fun _ => Except.error (0 : Nat)) (fun (_ : List Nat) _ xs => Except.ok xs))
        none 0 (new_limiter (some 1)) 3 5).2.2
        = some ((PruneEnv.mk (fun (_ : Nat) _ => true) (fun _ _ => Except.ok true)
          (fun _ => Except.error (0 : Nat)) (fun (_ : List Nat) _ xs => Except.ok xs)).bloom_should_keep
          none 0)) :=
  prune_blocks_spec _ none 0 (new_limiter (some 1)) 3 5

theorem warned_iff (setting : Nat) :
    (some (decide (max setting 10 > setting)) = some true) ↔ setting < 10 := by
  constructor
  · intro hs
    have h2 : max setting 10 > setting := of_decide_eq_true (Option.some.inj hs)
    omega
  · intro hs
    have hd : decide (max setting 10 > setting) = true := by
      rw [decide_eq_true_eq]
      omega
    rw [hd]

/-- C6: on a non-empty snapshot, `prune` sizes its semaphore to exactly
`max(setting, 10)` permits and warns precisely when the configured value
was below 10 (i.e. was raised). -/
theorem prune_semaphore_and_warning (env : PruneEnv Stats Expr Err)
    (snapshot : TableSnapshot) (push_down : Option (Extras Expr))
    (setting : Nat) (h : snapshot.segments ≠ []) :
    (prune env snapshot push_down setting).semaphore_permits
        = some (max setting 10)
    ∧ ((prune env snapshot push_down setting).warned = some true ↔ setting < 10) := by
  obtain ⟨segs⟩ := snapshot
  have hne : segs.isEmpty = false := by
    cases segs
    · simp at h
    · rfl
  unfold prune
  rw [if_neg (by simp [hne])]
  simp only []
  split
  · exact ⟨rfl, warned_iff setting⟩
  · exact ⟨rfl, warned_iff setting⟩

/-- C6 witness: with `max_concurrent_prune = 1`, the semaphore gets 10
permits and the warning fires. -/
theorem prune_semaphore_and_warning_witness :
    (prune (PruneEnv.mk (fun (_ : Nat) _ => true) (fun _ _ => Except.ok true)
        (fun _ => Except.error (0 : Nat)) (fun (_ : List Nat) _ xs => Except.ok xs))
      ⟨[("s0", 1)]⟩ none 1).semaphore_permits = some (max 1 10)
    ∧ ((prune (PruneEnv.mk (fun (_ : Nat) _ => true) (fun _ _ => Except.ok true)
        (fun _ => Except.error (0 : Nat)) (fun (_ : List Nat) _ xs => Except.ok xs))
      ⟨[("s0", 1)]⟩ none 1).warned = some true ↔ 1 < 10) :=
  prune_semaphore_and_warning _ ⟨[("s0", 1)]⟩ none 1 (by simp)

/-- C1: on a non-empty snapshot, the row-limit gate is built from the
pushed-down limit only when `order_by` is empty — with a non-empty
`order_by` the gate gets no limit; the top-N stage runs exactly when
`order_by` is non-empty and a limit is present (given the collection
succeeded), consuming that limit; otherwise the flat collected list is
returned unchanged. -/
theorem prune_limiter_gate_and_topn (env : PruneEnv Stats Expr Err)
    (snapshot : TableSnapshot) (push_down : Option (Extras Expr)) (setting : Nat)
    (h : snapshot.segments ≠ []) :
    (prune env snapshot push_down setting).limiter_limit
        = some (pushed_limit push_down)
    ∧ (∀ p, push_down = some p → p.order_by ≠ [] →
        (prune env snapshot push_down setting).limiter_limit = some none)
    ∧ ∀ ms, (prune env snapshot push_down setting).metas = Except.ok ms →
        ((prune env snapshot push_down setting).topn_invoked = true
            ↔ ∃ p l, push_down = some p ∧ p.order_by ≠ [] ∧ p.limit = some l)
        ∧ ((prune env snapshot push_down setting).topn_invoked = false →
            (prune env snapshot push_down setting).result = Except.ok ms)
        ∧ ∀ p l, push_down = some p → p.order_by ≠ [] → p.limit = some l →
            (prune env snapshot push_down setting).result
              = env.topn_prune p.order_by l ms := by
  obtain ⟨segs⟩ := snapshot
  have hne : segs.isEmpty = false := by
    cases segs
    · simp at h
    · rfl
  have hplim : ∀ p, push_down = some p → p.order_by ≠ [] →
      pushed_limit push_down = (none : Option Nat) := by
    intro p hp hob
    subst hp
    simp [pushed_limit, hob]
  unfold prune
  rw [if_neg (by simp [hne])]
  simp only []
  split
  · refine ⟨rfl, fun p hp hob => ?_, fun ms hms => ?_⟩
    · show some (pushed_limit push_down) = some none
      rw [hplim p hp hob]
    · exact absurd hms (by simp)
  · next ms0 heq =>
    refine ⟨rfl, fun p hp hob => ?_, fun ms hms => ?_⟩
    · show some (pushed_limit push_down) = some none
      rw [hplim p hp hob]
    · have hms0 : ms0 = ms := Except.ok.inj hms
      subst hms0
      cases push_down with
      | none =>
        have hat : apply_topn env (none : Option (Extras Expr)) ms0
            = (Except.ok ms0, false) := rfl
        refine ⟨?_, fun _ => ?_, fun p l hp => ?_⟩
        · show (apply_topn env none ms0).2 = true ↔ _
          rw [hat]
          constructor
          · intro hcontra
            simp at hcontra
          · rintro ⟨p, l, hp, -, -⟩
            cases hp
        · show (apply_topn env none ms0).1 = Except.ok ms0
          rw [hat]
        · cases hp
      | some p =>
        cases hl : p.limit with
        | none =>
          have hat : apply_topn env (some p) ms0 = (Except.ok ms0, false) := by
            simp [apply_topn, hl]
          refine ⟨?_, fun _ => ?_, fun p' l hp' hob' hl' => ?_⟩
          · show (apply_topn env (some p) ms0).2 = true ↔ _
            rw [hat]
            constructor
            · intro hcontra
              simp at hcontra
            · rintro ⟨p', l, hp', -, hl'⟩
              rw [Option.some.inj hp'] at hl
              rw [hl] at hl'
              cases hl'
          · show (apply_topn env (some p) ms0).1 = Except.ok ms0
            rw [hat]
          · rw [← Option.some.inj hp'] at hl'
            rw [hl] at hl'
            cases hl'
        | some l0 =>
          by_cases hob : p.order_by.isEmpty
          · have hat : apply_topn env (some p) ms0 = (Except.ok ms0, false) := by
              simp [apply_topn, hl, hob]
            refine ⟨?_, fun _ => ?_, fun p' l hp' hob' hl' => ?_⟩
            · show (apply_topn env (some p) ms0).2 = true ↔ _
              rw [hat]
              constructor
              · intro hcontra
                simp at hcontra
              · rintro ⟨p', l, hp', hob', -⟩
                rw [← Option.some.inj hp'] at hob'
                exact absurd (by simpa using hob) hob'
            · show (apply_topn env (some p) ms0).1 = Except.ok ms0
              rw [hat]
            · rw [← Option.some.inj hp'] at hob'
              exact absurd (by simpa using hob) hob'
          · have hat : apply_topn env (some p) ms0
                = (env.topn_prune p.order_by l0 ms0, true) := by
              simp [apply_topn, hl, hob]
            refine ⟨?_, fun hinv => ?_, fun p' l hp' hob' hl' => ?_⟩
            · show (apply_topn env (some p) ms0).2 = true ↔ _
              rw [hat]
              constructor
              · intro _
                exact ⟨p, l0, rfl, by simpa using hob, hl⟩
              · intro _
                rfl
            · rw [show (apply_topn env (some p) ms0).2 = true from by rw [hat]] at hinv
              cases hinv
            · have hp2 : p' = p := (Option.some.inj hp').symm
              subst hp2
              rw [hl] at hl'
              have hl2 : l = l0 := (Option.some.inj hl').symm
              subst hl2
              show (apply_topn env (some p') ms0).1 = _
              rw [hat]

/-- C1 witness: with `order_by` non-empty and a pushed-down limit, the
gate gets no limit and the top-N stage consumes it. -/
theorem prune_limiter_gate_and_topn_witness :
    (prune (PruneEnv.mk (fun (_ : Nat) _ => true) (fun _ _ => Except.ok true)
        (fun _ => Except.error (0 : Nat)) (fun (_ : List Nat) _ xs => Except.ok xs))
      ⟨[("s0", 1)]⟩ (some ⟨[], some 2, [7]⟩) 4).limiter_limit
        = some (pushed_limit (some ⟨[], some 2, [7]⟩))
    ∧ (∀ p, (some ⟨[], some 2, [7]⟩ : Option (Extras Nat)) = some p →
        p.order_by ≠ [] →
        (prune (PruneEnv.mk (fun (_ : Nat) _ => true) (fun _ _ => Except.ok true)
            (fun _ => Except.error (0 : Nat)) (fun (_ : List Nat) _ xs => Except.ok xs))
          ⟨[("s0", 1)]⟩ (some ⟨[], some 2, [7]⟩) 4).limiter_limit = some none)
    ∧ ∀ ms, (prune (PruneEnv.mk (fun (_ : Nat) _ => true) (fun _ _ => Except.ok true)
          (fun _ => Except.error (0 : Nat)) (fun (_ : List Nat) _ xs => Except.ok xs))
        ⟨[("s0", 1)]⟩ (some ⟨[], some 2, [7]⟩) 4).metas = Except.ok ms →
        ((prune (PruneEnv.mk (fun (_ : Nat) _ => true) (fun _ _ => Except.ok true)
            (fun _ => Except.error (0 : Nat)) (fun (_ : List Nat) _ xs => Except.ok xs))
          ⟨[("s0", 1)]⟩ (some ⟨[], some 2, [7]⟩) 4).topn_invoked = true
            ↔ ∃ p l, (some ⟨[], some 2, [7]⟩ : Option (Extras Nat)) = some p
                ∧ p.order_by ≠ [] ∧ p.limit = some l)
        ∧ ((prune (PruneEnv.mk (fun (_ : Nat) _ => true) (fun _ _ => Except.ok true)
            (fun _ => Except.error (0 : Nat)) (fun (_ : List Nat) _ xs => Except.ok xs))
          ⟨[("s0", 1)]⟩ (some ⟨[], some 2, [7]⟩) 4).topn_invoked = false →
            (prune (PruneEnv.mk (fun (_ : Nat) _ => true) (fun _ _ => Except.ok true)
              (fun _ => Except.error (0 : Nat)) (fun (_ : List Nat) _ xs => Except.ok xs))
              ⟨[("s0", 1)]⟩ (some ⟨[], some 2, [7]⟩) 4).result = Except.ok ms)
        ∧ ∀ p l, (some ⟨[], some 2, [7]⟩ : Option (Extras Nat)) = some p →
            p.order_by ≠ [] → p.limit = some l →
            (prune (PruneEnv.mk (fun (_ : Nat) _ => true) (fun _ _ => Except.ok true)
              (fun _ => Except.error (0 : Nat)) (fun (_ : List Nat) _ xs => Except.ok xs))
              ⟨[("s0", 1)]⟩ (some ⟨[], some 2, [7]⟩) 4).result
              = (PruneEnv.mk (fun (_ : Nat) _ => true) (fun _ _ => Except.ok true)
                  (fun _ => Except.error (0 : Nat))
                  (fun (_ : List Nat) _ xs => Except.ok xs)).topn_prune p.order_by l ms :=
  prune_limiter_gate_and_topn _ ⟨[("s0", 1)]⟩ (some ⟨[], some 2, [7]⟩) 4 (by simp)

/-- A concrete environment for counterexamples and witnesses: everything
kept, one segment of two 5-row blocks. -/
def env2 : PruneEnv Nat Nat Nat where
  range_should_keep := fun _ _ => true
  bloom_should_keep := fun _ _ => Except.ok true
  segment_read := fun _ => Except.ok
    { summary := { col_stats := 0, row_count := 10 },
      blocks := [⟨5, 0, some ("i0", 1), 4⟩, ⟨5, 1, some ("i1", 1), 4⟩] }
  topn_prune := fun _ _ xs => Except.ok xs

/-- `env2` with a failing bloom-index reader. -/
def env2_bloom_err : PruneEnv Nat Nat Nat :=
  { env2 with bloom_should_keep := fun _ _ => Except.error 7 }

/-- C3 counterexample: with a 5-row budget, block 0 is spawned, granted
credit and kept — its recorded outcome is `Ok (0, true)` — the limiter is
then observed exhausted at block 1, and `prune_segment` returns `Ok []`:
the surviving, already-processed block 0 is not contained in the returned
vector, because the early return happens before any outcome is collected. -/
theorem prune_segment_discards_processed_blocks :
    (prune_segment env2 0 ("s0", 1) (new_limiter (some 5))).result = Except.ok []
    ∧ (prune_segment env2 0 ("s0", 1) (new_limiter (some 5))).outcomes
        = [Except.ok (0, true)]
    ∧ (prune_segment env2 0 ("s0", 1) (new_limiter (some 5))).early_exit = true :=
  ⟨rfl, rfl, rfl⟩

/-- C3 (amended): when `limiter.exceeded()` becomes true during the
per-block loop, `prune_segment` returns `Ok` with the result vector
collected so far — which is necessarily empty, since blocks are collected
only after all spawned block tasks are joined; the outcomes of
already-spawned tasks are discarded, not returned. -/
theorem prune_segment_early_exit_returns_empty (env : PruneEnv Stats Expr Err)
    (segment_idx : SegmentIndex) (location : Location) (limiter : LimiterPruner)
    (h : (prune_segment env segment_idx location limiter).early_exit = true) :
    (prune_segment env segment_idx location limiter).result = Except.ok [] := by
  revert h
  unfold prune_segment
  simp only []
  split
  · intro h
    simp at h
  · split
    · intro h
      simp at h
    · split
      · split
        · intro _
          rfl
        · split
          · intro h
            simp at h
          · intro h
            simp at h
      · intro h
        simp at h

/-- C3 amended-claim witness: a concrete early exit that returns `Ok []`. -/
theorem prune_segment_early_exit_returns_empty_witness :
    (prune_segment env2 1 ("s1", 1) (new_limiter (some 3))).result
      = Except.ok [] :=
  prune_segment_early_exit_returns_empty env2 1 ("s1", 1) (new_limiter (some 3)) rfl

theorem prune_blocks_unbounded (env : PruneEnv Stats Expr Err)
    (index_location : Option Location) (index_size : Nat)
    (block_idx row_count : Nat) :
    (prune_blocks env index_location index_size (new_limiter none) block_idx
        row_count).2.1 = new_limiter none
    ∧ ∀ e, (prune_blocks env index_location index_size (new_limiter none)
          block_idx row_count).2.2 = some (Except.error e) →
        (prune_blocks env index_location index_size (new_limiter none) block_idx
          row_count).1 = Except.error e := by
  unfold prune_blocks
  have hwl : (new_limiter none).within_limit row_count
      = (true, new_limiter none) := rfl
  rw [hwl]
  cases hb : env.bloom_should_keep index_location index_size with
  | ok b =>
    cases b
    · exact ⟨rfl, fun e he => absurd (Option.some.inj he) (by simp)⟩
    · exact ⟨rfl, fun e he => absurd (Option.some.inj he) (by simp)⟩
  | error e2 =>
    refine ⟨rfl, fun e he => ?_⟩
    have h1 : (Except.error e2 : Except Err Bool) = Except.error e :=
      Option.some.inj he
    simpa using h1

theorem prune_segment_loop_unbounded (env : PruneEnv Stats Expr Err) :
    ∀ (bl : List (BlockIndex × BlockMeta Stats)),
    (prune_segment_loop env bl (new_limiter none)).1 = new_limiter none
    ∧ (prune_segment_loop env bl (new_limiter none)).2.2.2 = false
    ∧ ∀ e, Except.error e ∈ (prune_segment_loop env bl (new_limiter none)).2.2.1 →
        Except.error e ∈ (prune_segment_loop env bl (new_limiter none)).2.1 := by
  intro bl
  induction bl with
  | nil => exact ⟨rfl, rfl, fun e he => absurd he (by simp [prune_segment_loop])⟩
  | cons hd rest ih =>
    obtain ⟨bi, bm⟩ := hd
    obtain ⟨ih1, ih2, ih3⟩ := ih
    obtain ⟨hpb1, hpb2⟩ := prune_blocks_unbounded env
      bm.bloom_filter_index_location bm.bloom_filter_index_size bi bm.row_count
    have hred : prune_segment_loop env ((bi, bm) :: rest) (new_limiter none)
        = if env.range_should_keep bm.col_stats bm.row_count then
            ((prune_segment_loop env rest
                (prune_blocks env bm.bloom_filter_index_location
                  bm.bloom_filter_index_size (new_limiter none) bi
                  bm.row_count).2.1).1,
             (prune_blocks env bm.bloom_filter_index_location
                bm.bloom_filter_index_size (new_limiter none) bi
                bm.row_count).1
               :: (prune_segment_loop env rest
                    (prune_blocks env bm.bloom_filter_index_location
                      bm.bloom_filter_index_size (new_limiter none) bi
                      bm.row_count).2.1).2.1,
             (match (prune_blocks env bm.bloom_filter_index_location
                  bm.bloom_filter_index_size (new_limiter none) bi
                  bm.row_count).2.2 with
              | some f => f :: (prune_segment_loop env rest
                  (prune_blocks env bm.bloom_filter_index_location
                    bm.bloom_filter_index_size (new_limiter none) bi
                    bm.row_count).2.1).2.2.1
              | none => (prune_segment_loop env rest
                  (prune_blocks env bm.bloom_filter_index_location
                    bm.bloom_filter_index_size (new_limiter none) bi
                    bm.row_count).2.1).2.2.1),
             (prune_segment_loop env rest
                (prune_blocks env bm.bloom_filter_index_location
                  bm.bloom_filter_index_size (new_limiter none) bi
                  bm.row_count).2.1).2.2.2)
          else prune_segment_loop env rest (new_limiter none) := rfl
    rw [hred, hpb1]
    cases hkeep : env.range_should_keep bm.col_stats bm.row_count
    · rw [if_neg (by simp)]
      exact ⟨ih1, ih2, ih3⟩
    · rw [if_pos rfl]
      refine ⟨ih1, ih2, ?_⟩
      intro e he
      simp only [List.mem_cons]
      cases hf : (prune_blocks env bm.bloom_filter_index_location
          bm.bloom_filter_index_size (new_limiter none) bi bm.row_count).2.2 with
      | none =>
        rw [hf] at he
        exact Or.inr (ih3 e he)
      | some f =>
        rw [hf] at he
        rcases List.mem_cons.mp he with he1 | he1
        · left
          rw [hpb2 e (by rw [hf, ← he1])]
        · exact Or.inr (ih3 e he1)

theorem collectExcept_mem_error {α : Type} (xs : List (Except Err α)) (e : Err)
    (h : Except.error e ∈ xs) : ∃ e2, collectExcept xs = Except.error e2 := by
  induction xs with
  | nil => simp at h
  | cons x rest ih =>
    cases x with
    | error e1 => exact ⟨e1, rfl⟩
    | ok v =>
      rcases List.mem_cons.mp h with h1 | h1
      · cases h1
      · obtain ⟨e2, he2⟩ := ih h1
        refine ⟨e2, ?_⟩
        show (collectExcept rest).map (fun l => v :: l) = Except.error e2
        rw [he2]
        rfl

theorem prune_segment_unbounded (env : PruneEnv Stats Expr Err)
    (segment_idx : SegmentIndex) (location : Location) :
    (prune_segment env segment_idx location (new_limiter none)).limiter
        = new_limiter none
    ∧ ∀ e, Except.error e
          ∈ (prune_segment env segment_idx location (new_limiter none)).fetches →
        ∃ e2, (prune_segment env segment_idx location (new_limiter none)).result
          = Except.error e2 := by
  unfold prune_segment
  have hex : (new_limiter none).exceeded = false := rfl
  rw [if_neg (by rw [hex]; simp)]
  cases hread : env.segment_read location with
  | error e1 => exact ⟨rfl, fun e he => absurd he (by simp)⟩
  | ok segment_info =>
    simp only []
    obtain ⟨hl1, hl2, hl3⟩ :=
      prune_segment_loop_unbounded env segment_info.blocks.enum
    cases hkeep : env.range_should_keep segment_info.summary.col_stats
        segment_info.summary.row_count
    · rw [if_neg (by simp)]
      exact ⟨rfl, fun e he => absurd he (by simp)⟩
    · rw [if_pos rfl]
      rw [hl2]
      rw [if_neg (by simp)]
      cases hcol : collectExcept (prune_segment_loop env segment_info.blocks.enum
          (new_limiter none)).2.1 with
      | error e1 => exact ⟨hl1, fun e _ => ⟨e1, rfl⟩⟩
      | ok pairs =>
        refine ⟨hl1, fun e he => ?_⟩
        obtain ⟨e2, he2⟩ := collectExcept_mem_error _ e (hl3 e he)
        rw [hcol] at he2
        cases he2

theorem prune_segments_fold_unbounded (env : PruneEnv Stats Expr Err) :
    ∀ (sl : List (SegmentIndex × Location)),
    (prune_segments_fold env sl (new_limiter none)).2.1 = new_limiter none
    ∧ ∀ e, Except.error e ∈ (prune_segments_fold env sl (new_limiter none)).2.2 →
        ∃ e2, Except.error e2 ∈ (prune_segments_fold env sl (new_limiter none)).1 := by
  intro sl
  induction sl with
  | nil => exact ⟨rfl, fun e he => absurd he (by simp [prune_segments_fold])⟩
  | cons hd rest ih =>
    obtain ⟨si, loc⟩ := hd
    obtain ⟨ih1, ih2⟩ := ih
    obtain ⟨hs1, hs2⟩ := prune_segment_unbounded env si loc
    have hred : prune_segments_fold env ((si, loc) :: rest) (new_limiter none)
        = ((prune_segment env si loc (new_limiter none)).result
             :: (prune_segments_fold env rest
                  (prune_segment env si loc (new_limiter none)).limiter).1,
           (prune_segments_fold env rest
              (prune_segment env si loc (new_limiter none)).limiter).2.1,
           (prune_segment env si loc (new_limiter none)).fetches
             ++ (prune_segments_fold env rest
                  (prune_segment env si loc (new_limiter none)).limiter).2.2) := rfl
    rw [hred, hs1]
    refine ⟨ih1, ?_⟩
    intro e he
    simp only [List.mem_append] at he
    simp only [List.mem_cons]
    rcases he with he | he
    · obtain ⟨e2, he2⟩ := hs2 e he
      exact ⟨e2, Or.inl he2.symm⟩
    · obtain ⟨e2, he2⟩ := ih2 e he
      exact ⟨e2, Or.inr he2⟩

/-- C4 counterexample: a bloom-index read that fails after the limiter
granted credit is discarded, not surfaced, when the limiter is observed
exhausted before the segment joins its block tasks: `prune` returns `Ok`
even though a bloom read was issued and failed. -/
theorem prune_bloom_error_suppressed :
    (prune env2_bloom_err ⟨[("s0", 1)]⟩ (some ⟨[], some 5, []⟩) 4).result
        = Except.ok []
    ∧ (prune env2_bloom_err ⟨[("s0", 1)]⟩ (some ⟨[], some 5, []⟩) 4).fetches
        = [Except.error 7] :=
  ⟨rfl, rfl⟩

/-- C4 (amended): a failing bloom-index read fails the whole `prune` call,
provided the row-limit gate is unbounded (no limit pushed down, or
`order_by` non-empty) — then no early limiter exit can discard the failed
task.  (With a bounded, exhausted gate a failure can be discarded, per the
counterexample.) -/
theorem prune_bloom_error_fails_call (env : PruneEnv Stats Expr Err)
    (snapshot : TableSnapshot) (push_down : Option (Extras Expr)) (setting : Nat)
    (e : Err) (hlim : pushed_limit push_down = none)
    (hmem : Except.error e ∈ (prune env snapshot push_down setting).fetches) :
    ∃ e2, (prune env snapshot push_down setting).result = Except.error e2 := by
  revert hmem
  unfold prune
  rw [hlim]
  by_cases hemp : snapshot.segments.isEmpty
  · rw [if_pos hemp]
    intro hmem
    simp at hmem
  · rw [if_neg hemp]
    simp only []
    obtain ⟨hf1, hf2⟩ := prune_segments_fold_unbounded env snapshot.segments.enum
    cases hcol : Except.map List.flatten
        (collectExcept (prune_segments_fold env snapshot.segments.enum
          (new_limiter none)).1) with
    | error e3 =>
      intro _
      refine ⟨e3, ?_⟩
      simp only [hcol]
    | ok metas =>
      intro hmem
      simp only [hcol] at hmem
      obtain ⟨e2, he2⟩ := hf2 e hmem
      obtain ⟨e3, he3⟩ := collectExcept_mem_error _ e2 he2
      have hmap : Except.map List.flatten
          (collectExcept (prune_segments_fold env snapshot.segments.enum
            (new_limiter none)).1)
          = (Except.error e3 : Except Err (List (SegmentIndex × BlockMeta Stats))) := by
        rw [he3]
        rfl
      rw [hcol] at hmap
      cases hmap

/-- C4 amended-claim witness: with no pushed-down limit, a failing bloom
read makes the whole call fail. -/
theorem prune_bloom_error_fails_call_witness :
    ∃ e2, (prune env2_bloom_err ⟨[("s0", 1)]⟩ none 4).result
      = Except.error e2 :=
  prune_bloom_error_fails_call env2_bloom_err ⟨[("s0", 1)]⟩ none 4 7 rfl
    (by
      rw [show (prune env2_bloom_err ⟨[("s0", 1)]⟩ none 4).fetches
          = [Except.error 7, Except.error 7] from rfl]
      exact List.mem_cons_self _ _)

theorem collectExcept_ok_cons {α : Type} (y : Except Err α) (ys : List (Except Err α))
    (ps : List α) (h : collectExcept (y :: ys) = Except.ok ps) :
    ∃ v ps', y = Except.ok v ∧ collectExcept ys = Except.ok ps' ∧ ps = v :: ps' := by
  cases y with
  | error e => cases h
  | ok v =>
    have h2 : (collectExcept ys).map (fun l => v :: l) = Except.ok ps := h
    cases hys : collectExcept ys with
    | error e =>
      rw [hys] at h2
      cases h2
    | ok ps' =>
      rw [hys] at h2
      exact ⟨v, ps', rfl, rfl, (Except.ok.inj h2).symm⟩

theorem prune_blocks_fst (env : PruneEnv Stats Expr Err)
    (index_location : Option Location) (index_size : Nat) (limiter : LimiterPruner)
    (block_idx row_count : Nat) (x : BlockIndex × Bool)
    (h : (prune_blocks env index_location index_size limiter block_idx
        row_count).1 = Except.ok x) : x.1 = block_idx := by
  unfold prune_blocks at h
  rcases hw : limiter.within_limit row_count with ⟨w, limiter1⟩
  rw [hw] at h
  cases w
  · rw [← Except.ok.inj h]
  · cases hb : env.bloom_should_keep index_location index_size with
    | ok b =>
      rw [hb] at h
      cases b
      · rw [← Except.ok.inj h]
      · rw [← Except.ok.inj h]
    | error e =>
      rw [hb] at h
      cases h

/-- The joined outcomes of the block loop carry block indices drawn, in
order, from the processed prefix of the blocks. -/
theorem prune_segment_loop_fst_sublist (env : PruneEnv Stats Expr Err) :
    ∀ (bl : List (BlockIndex × BlockMeta Stats)) (limiter : LimiterPruner)
      (ps : List (BlockIndex × Bool)),
    collectExcept (prune_segment_loop env bl limiter).2.1 = Except.ok ps →
    List.Sublist (ps.map Prod.fst) (bl.map Prod.fst) := by
  intro bl
  induction bl with
  | nil =>
    intro limiter ps h
    have h0 : ps = [] := (Except.ok.inj h).symm
    rw [h0]
    exact List.nil_sublist _
  | cons hd rest ih =>
    obtain ⟨bi, bm⟩ := hd
    intro limiter ps h
    have hred : prune_segment_loop env ((bi, bm) :: rest) limiter
        = if limiter.exceeded then (limiter, [], [], true)
          else if env.range_should_keep bm.col_stats bm.row_count then
            ((prune_segment_loop env rest
                (prune_blocks env bm.bloom_filter_index_location
                  bm.bloom_filter_index_size limiter bi bm.row_count).2.1).1,
             (prune_blocks env bm.bloom_filter_index_location
                bm.bloom_filter_index_size limiter bi bm.row_count).1
               :: (prune_segment_loop env rest
                    (prune_blocks env bm.bloom_filter_index_location
                      bm.bloom_filter_index_size limiter bi bm.row_count).2.1).2.1,
             (match (prune_blocks env bm.bloom_filter_index_location
                  bm.bloom_filter_index_size limiter bi bm.row_count).2.2 with
              | some f => f :: (prune_segment_loop env rest
                  (prune_blocks env bm.bloom_filter_index_location
                    bm.bloom_filter_index_size limiter bi bm.row_count).2.1).2.2.1
              | none => (prune_segment_loop env rest
                  (prune_blocks env bm.bloom_filter_index_location
                    bm.bloom_filter_index_size limiter bi bm.row_count).2.1).2.2.1),
             (prune_segment_loop env rest
                (prune_blocks env bm.bloom_filter_index_location
                  bm.bloom_filter_index_size limiter bi bm.row_count).2.1).2.2.2)
          else prune_segment_loop env rest limiter := rfl
    rw [hred] at h
    by_cases hex : limiter.exceeded
    · rw [if_pos hex] at h
      have h0 : ps = [] := (Except.ok.inj h).symm
      rw [h0]
      exact List.nil_sublist _
    · rw [if_neg hex] at h
      cases hkeep : env.range_should_keep bm.col_stats bm.row_count
      · rw [hkeep] at h
        rw [if_neg (by simp)] at h
        exact (ih limiter ps h).cons bi
      · rw [hkeep] at h
        rw [if_pos rfl] at h
        simp only [] at h
        obtain ⟨v, ps', hv, hps', hps⟩ := collectExcept_ok_cons _ _ _ h
        have hfst : v.1 = bi := prune_blocks_fst env _ _ _ _ _ v hv
        rw [hps]
        simp only [List.map_cons, hfst]
        exact (ih _ ps' hps').cons₂ bi

/-- Lifting a permutation through `map`: a list permuting with `t.map f`
is itself the image of a permutation of `t`. -/
theorem exists_perm_of_perm_map {α β : Type} (f : α → β) (L l2 : List β)
    (h : List.Perm L l2) :
    ∀ t : List α, L = t.map f → ∃ t2, l2 = t2.map f ∧ List.Perm t t2 := by
  induction h with
  | nil =>
    intro t ht
    have h0 : t = [] := by
      cases t
      · rfl
      · simp at ht
    exact ⟨[], rfl, by rw [h0]⟩
  | cons x h ih =>
    intro t ht
    cases t with
    | nil => simp at ht
    | cons a t0 =>
      simp only [List.map_cons] at ht
      obtain ⟨hx, hl⟩ := List.cons.inj ht
      obtain ⟨t2, ht2, hp⟩ := ih t0 hl
      exact ⟨a :: t2, by simp [hx, ht2], List.Perm.cons a hp⟩
  | swap x y l =>
    intro t ht
    cases t with
    | nil => simp at ht
    | cons a t1 =>
      cases t1 with
      | nil => simp at ht
      | cons b t2 =>
        simp only [List.map_cons] at ht
        obtain ⟨hy, ht'⟩ := List.cons.inj ht
        obtain ⟨hx, hl⟩ := List.cons.inj ht'
        refine ⟨b :: a :: t2, by simp [hx, hy, hl], List.Perm.swap b a t2⟩
  | trans h1 h2 ih1 ih2 =>
    intro t ht
    obtain ⟨t1, ht1, hp1⟩ := ih1 t ht
    obtain ⟨t2, ht2, hp2⟩ := ih2 t1 ht1
    exact ⟨t2, ht2, hp1.trans hp2⟩

theorem filterMap_result_tagged (si : SegmentIndex) (blocks : List (BlockMeta Stats)) :
    ∀ ps : List (BlockIndex × Bool),
      ps.filterMap (fun p =>
          if p.2 then (blocks.get? p.1).map (fun blk => (si, blk)) else none)
        = (ps.filterMap (fun p =>
            if p.2 then (blocks.get? p.1).map (fun blk => (p.1, blk)) else none)).map
            (fun q => (si, q.2)) := by
  intro ps
  induction ps with
  | nil => rfl
  | cons p rest ih =>
    simp only [List.filterMap_cons]
    cases hp2 : p.2
    · simp only [Bool.false_eq_true, if_false]
      exact ih
    · simp only [if_true]
      cases hget : blocks.get? p.1 with
      | none =>
        simp only [Option.map_none']
        exact ih
      | some blk =>
        simp only [Option.map_some', List.map_cons]
        rw [ih]

theorem filterMap_tagged_fst_sublist (blocks : List (BlockMeta Stats)) :
    ∀ ps : List (BlockIndex × Bool),
      List.Sublist
        ((ps.filterMap (fun p =>
          if p.2 then (blocks.get? p.1).map (fun blk => (p.1, blk)) else none)).map
            Prod.fst)
        (ps.map Prod.fst) := by
  intro ps
  induction ps with
  | nil => exact List.nil_sublist _
  | cons p rest ih =>
    simp only [List.filterMap_cons, List.map_cons]
    cases hp2 : p.2
    · simp only [Bool.false_eq_true, if_false]
      exact ih.cons p.1
    · simp only [if_true]
      cases hget : blocks.get? p.1 with
      | none =>
        simp only [Option.map_none']
        exact ih.cons p.1
      | some blk =>
        simp only [Option.map_some', List.map_cons]
        exact ih.cons₂ p.1

theorem mem_filterMap_tagged (blocks : List (BlockMeta Stats))
    (ps : List (BlockIndex × Bool)) (q : BlockIndex × BlockMeta Stats)
    (h : q ∈ ps.filterMap (fun p =>
        if p.2 then (blocks.get? p.1).map (fun blk => (p.1, blk)) else none)) :
    blocks.get? q.1 = some q.2 := by
  obtain ⟨p, _, hp⟩ := List.mem_filterMap.mp h
  revert hp
  cases hp2 : p.2
  · simp
  · simp only [if_true]
    cases hget : blocks.get? p.1 with
    | none => simp
    | some blk =>
      simp only [Option.map_some', Option.some.injEq]
      intro hq
      rw [← hq]
      exact hget

/-- Every successful `prune_segment` result is a list of
`(segment_idx, blocks[b])` pairs for a strictly increasing list of block
offsets `b` of the segment just read. -/
theorem prune_segment_result_structure (env : PruneEnv Stats Expr Err)
    (segment_idx : SegmentIndex) (location : Location) (limiter : LimiterPruner)
    (r : List (SegmentIndex × BlockMeta Stats))
    (h : (prune_segment env segment_idx location limiter).result = Except.ok r) :
    ∃ ks : List (BlockIndex × BlockMeta Stats),
      r = ks.map (fun p => (segment_idx, p.2))
      ∧ (ks.map Prod.fst).Pairwise (· < ·)
      ∧ ∀ p ∈ ks, ∃ seg, env.segment_read location = Except.ok seg
          ∧ seg.blocks.get? p.1 = some p.2 := by
  revert h
  unfold prune_segment
  simp only []
  split
  · intro h
    refine ⟨[], ?_, List.Pairwise.nil, by simp⟩
    rw [← Except.ok.inj h]
    rfl
  · split
    · intro h
      exact absurd h (by simp)
    · next segment_info hread =>
      split
      · split
        · intro h
          refine ⟨[], ?_, List.Pairwise.nil, by simp⟩
          rw [← Except.ok.inj h]
          rfl
        · split
          · intro h
            exact absurd h (by simp)
          · next pairs hcol =>
            intro h
            have hr : r = pairs.filterMap (fun p =>
                if p.2 then (segment_info.blocks.get? p.1).map
                  (fun blk => (segment_idx, blk)) else none) :=
              (Except.ok.inj h).symm
            refine ⟨pairs.filterMap (fun p =>
              if p.2 then (segment_info.blocks.get? p.1).map
                (fun blk => (p.1, blk)) else none), ?_, ?_, ?_⟩
            · rw [hr]
              exact filterMap_result_tagged segment_idx segment_info.blocks pairs
            · have h1 := filterMap_tagged_fst_sublist segment_info.blocks pairs
              have h2 := prune_segment_loop_fst_sublist env
                segment_info.blocks.enum limiter pairs hcol
              have h3 : (segment_info.blocks.enum.map Prod.fst).Pairwise (· < ·) := by
                rw [List.enum_eq_enumFrom, List.enumFrom_map_fst]
                exact List.pairwise_lt_range' 0 segment_info.blocks.length
              exact List.Pairwise.sublist (h1.trans h2) h3
            · intro p hp
              exact ⟨segment_info, hread,
                mem_filterMap_tagged segment_info.blocks pairs p hp⟩
      · intro h
        refine ⟨[], ?_, List.Pairwise.nil, by simp⟩
        rw [← Except.ok.inj h]
        rfl

theorem prune_segments_fold_structure (env : PruneEnv Stats Expr Err) :
    ∀ (sl : List (SegmentIndex × Location)) (limiter : LimiterPruner)
      (parts : List (List (SegmentIndex × BlockMeta Stats))),
    collectExcept (prune_segments_fold env sl limiter).1 = Except.ok parts →
    List.Forall₂ (fun (q : SegmentIndex × Location) part =>
      ∃ lim, (prune_segment env q.1 q.2 lim).result = Except.ok part) sl parts := by
  intro sl
  induction sl with
  | nil =>
    intro limiter parts h
    have h0 : parts = [] := (Except.ok.inj h).symm
    rw [h0]
    exact List.Forall₂.nil
  | cons hd rest ih =>
    obtain ⟨si, loc⟩ := hd
    intro limiter parts h
    have hred : (prune_segments_fold env ((si, loc) :: rest) limiter).1
        = (prune_segment env si loc limiter).result
          :: (prune_segments_fold env rest
              (prune_segment env si loc limiter).limiter).1 := rfl
    rw [hred] at h
    obtain ⟨v, ps', hv, hps', hps⟩ := collectExcept_ok_cons _ _ _ h
    rw [hps]
    exact List.Forall₂.cons ⟨limiter, hv⟩ (ih _ ps' hps')

theorem flatten_parts_structure (env : PruneEnv Stats Expr Err)
    (segs : List Location) (sl : List (SegmentIndex × Location))
    (parts : List (List (SegmentIndex × BlockMeta Stats)))
    (hf : List.Forall₂ (fun (q : SegmentIndex × Location) part =>
      ∃ lim, (prune_segment env q.1 q.2 lim).result = Except.ok part) sl parts) :
    (sl.map Prod.fst).Pairwise (· < ·) →
    (∀ q ∈ sl, segs.get? q.1 = some q.2) →
    ∃ tagged : List (SegmentIndex × BlockIndex × BlockMeta Stats),
      parts.flatten = tagged.map (fun t => (t.1, t.2.2))
      ∧ tagged.Pairwise (fun a b => a.1 < b.1 ∨ (a.1 = b.1 ∧ a.2.1 < b.2.1))
      ∧ (∀ t ∈ tagged, t.1 ∈ sl.map Prod.fst)
      ∧ ∀ t ∈ tagged, ∃ loc seg, segs.get? t.1 = some loc
          ∧ env.segment_read loc = Except.ok seg
          ∧ seg.blocks.get? t.2.1 = some t.2.2 := by
  induction hf with
  | nil =>
    intro _ _
    exact ⟨[], rfl, List.Pairwise.nil, by simp, by simp⟩
  | @cons q part sl' parts' hq hrest ih =>
    intro hpw hmem
    obtain ⟨lim, hseg⟩ := hq
    obtain ⟨ks, hpart, hkpw, hkfacts⟩ :=
      prune_segment_result_structure env q.1 q.2 lim part hseg
    have hpw' : (sl'.map Prod.fst).Pairwise (· < ·) := by
      simp only [List.map_cons] at hpw
      exact (List.pairwise_cons.mp hpw).2
    have hcross : ∀ b ∈ sl'.map Prod.fst, q.1 < b := by
      simp only [List.map_cons] at hpw
      exact (List.pairwise_cons.mp hpw).1
    have hmem' : ∀ w ∈ sl', segs.get? w.1 = some w.2 :=
      fun w hw => hmem w (List.mem_cons_of_mem _ hw)
    obtain ⟨tagged', hflat', hpw'', hin', hfacts'⟩ := ih hpw' hmem'
    refine ⟨ks.map (fun p => (q.1, p.1, p.2)) ++ tagged', ?_, ?_, ?_, ?_⟩
    · simp only [List.flatten_cons, List.map_append, hflat']
      congr 1
      rw [hpart, List.map_map]
      rfl
    · rw [List.pairwise_append]
      refine ⟨?_, hpw'', ?_⟩
      · rw [List.pairwise_map]
        have hkp := (List.pairwise_map).mp hkpw
        exact hkp.imp (fun hab => Or.inr ⟨rfl, hab⟩)
      · intro x hx y hy
        obtain ⟨p, hp, hx'⟩ := List.mem_map.mp hx
        have hy1 := hin' y hy
        left
        rw [← hx']
        exact hcross y.1 hy1
    · intro t ht
      simp only [List.map_cons, List.mem_cons]
      rcases List.mem_append.mp ht with ht | ht
      · obtain ⟨p, hp, ht'⟩ := List.mem_map.mp ht
        left
        rw [← ht']
      · exact Or.inr (hin' t ht)
    · intro t ht
      rcases List.mem_append.mp ht with ht | ht
      · obtain ⟨p, hp, ht'⟩ := List.mem_map.mp ht
        obtain ⟨seg, hr, hb⟩ := hkfacts p hp
        refine ⟨q.2, seg, ?_, hr, ?_⟩
        · rw [← ht']
          exact hmem q (List.mem_cons_self _ _)
        · rw [← ht']
          exact hb
      · exact hfacts' t ht

/-- C5: every successful `prune` call returns a list of blocks drawn from
pairwise-distinct `(segment offset, block offset)` positions, each block
being the element at its positional offset within the segment at its
positional offset in the snapshot.  The top-N pruner is not in the
sources; per spec §4.5 it keeps a subset of the surviving blocks, which is
assumed here as: a successful `topn_prune` returns a sub-permutation of
its input. -/
theorem prune_result_positions (env : PruneEnv Stats Expr Err)
    (snapshot : TableSnapshot) (push_down : Option (Extras Expr)) (setting : Nat)
    (htopn : ∀ ob l xs ys, env.topn_prune ob l xs = Except.ok ys →
      List.Subperm ys xs)
    (ms : List (SegmentIndex × BlockMeta Stats))
    (h : (prune env snapshot push_down setting).result = Except.ok ms) :
    ∃ tagged : List (SegmentIndex × BlockIndex × BlockMeta Stats),
      ms = tagged.map (fun t => (t.1, t.2.2))
      ∧ (tagged.map (fun t => (t.1, t.2.1))).Nodup
      ∧ ∀ t ∈ tagged, ∃ loc seg, snapshot.segments.get? t.1 = some loc
          ∧ env.segment_read loc = Except.ok seg
          ∧ seg.blocks.get? t.2.1 = some t.2.2 := by
  revert h
  unfold prune
  by_cases hemp : snapshot.segments.isEmpty
  · rw [if_pos hemp]
    intro h
    have hms : ms = [] := (Except.ok.inj h).symm
    exact ⟨[], by rw [hms]; rfl, by simp, by simp⟩
  · rw [if_neg hemp]
    simp only []
    cases hcol : Except.map List.flatten
        (collectExcept (prune_segments_fold env snapshot.segments.enum
          (new_limiter (pushed_limit push_down))).1) with
    | error e =>
      intro h
      simp only [hcol] at h
      exact absurd h (by simp)
    | ok metas0 =>
      intro h
      simp only [hcol] at h
      have hcol' : ∃ parts, collectExcept (prune_segments_fold env
            snapshot.segments.enum (new_limiter (pushed_limit push_down))).1
            = Except.ok parts ∧ metas0 = parts.flatten := by
        cases hc : collectExcept (prune_segments_fold env snapshot.segments.enum
            (new_limiter (pushed_limit push_down))).1 with
        | error e =>
          rw [hc] at hcol
          exact absurd hcol (by simp [Except.map])
        | ok parts =>
          rw [hc] at hcol
          refine ⟨parts, rfl, ?_⟩
          have : Except.ok (List.flatten parts)
              = (Except.ok metas0 : Except Err (List (SegmentIndex × BlockMeta Stats))) := hcol
          exact (Except.ok.inj this).symm
      obtain ⟨parts, hparts, hflat⟩ := hcol'
      have hforall := prune_segments_fold_structure env snapshot.segments.enum
        _ parts hparts
      have hpw : (snapshot.segments.enum.map Prod.fst).Pairwise (· < ·) := by
        rw [List.enum_eq_enumFrom, List.enumFrom_map_fst]
        exact List.pairwise_lt_range' 0 _
      have hmemq : ∀ q ∈ snapshot.segments.enum,
          snapshot.segments.get? q.1 = some q.2 := by
        intro q hq
        rw [List.get?_eq_getElem?]
        exact List.mem_enum_iff_getElem?.mp hq
      obtain ⟨tagged, hflat2, hlex, _, hfacts⟩ := flatten_parts_structure env
        snapshot.segments snapshot.segments.enum parts hforall hpw hmemq
      have hm0 : metas0 = tagged.map (fun t => (t.1, t.2.2)) :=
        hflat.trans hflat2
      have hnd : (tagged.map (fun t => (t.1, t.2.1))).Nodup := by
        show (tagged.map (fun t => (t.1, t.2.1))).Pairwise (· ≠ ·)
        rw [List.pairwise_map]
        refine hlex.imp ?_
        intro a b hab
        intro hc
        simp only [Prod.mk.injEq] at hc
        rcases hab with h1 | ⟨h1, h2⟩
        · exact absurd hc.1 (Nat.ne_of_lt h1)
        · exact absurd hc.2 (Nat.ne_of_lt h2)
      have hms : ms = metas0 ∨ List.Subperm ms metas0 := by
        cases push_down with
        | none => exact Or.inl (Except.ok.inj h).symm
        | some p =>
          cases hl : p.limit with
          | none =>
            simp only [apply_topn, hl] at h
            exact Or.inl (Except.ok.inj h).symm
          | some l0 =>
            by_cases hob : p.order_by.isEmpty
            · simp only [apply_topn, hl, hob, if_true] at h
              exact Or.inl (Except.ok.inj h).symm
            · simp only [apply_topn, hl, hob, Bool.false_eq_true, if_false] at h
              exact Or.inr (htopn p.order_by l0 metas0 ms h)
      rcases hms with hms | hms
      · refine ⟨tagged, ?_, hnd, hfacts⟩
        rw [hms, hm0]
      · rw [hm0] at hms
        obtain ⟨m, hmp, hmsub⟩ := hms
        obtain ⟨t1, ht1, hmeq⟩ := List.sublist_map_iff.mp hmsub
        obtain ⟨t2, hmseq, hperm⟩ :=
          exists_perm_of_perm_map (fun t => (t.1, t.2.2)) m ms hmp t1 hmeq
        refine ⟨t2, hmseq, ?_, ?_⟩
        · have h1 : List.Sublist (t1.map (fun t => (t.1, t.2.1)))
              (tagged.map (fun t => (t.1, t.2.1))) := ht1.map _
          have h2 : (t1.map (fun t => (t.1, t.2.1))).Nodup :=
            List.Nodup.sublist h1 hnd
          exact (hperm.map (fun t => (t.1, t.2.1))).nodup h2
        · intro t ht
          exact hfacts t (ht1.subset (hperm.mem_iff.mpr ht))

/-- C5 witness: a concrete successful prune whose two returned blocks sit
at distinct positions of the snapshot. -/
theorem prune_result_positions_witness :
    ∃ tagged : List (SegmentIndex × BlockIndex × BlockMeta Nat),
      [((0 : SegmentIndex), (⟨5, 0, some ("i0", 1), 4⟩ : BlockMeta Nat)),
        (0, ⟨5, 1, some ("i1", 1), 4⟩)]
        = tagged.map (fun t => (t.1, t.2.2))
      ∧ (tagged.map (fun t => (t.1, t.2.1))).Nodup
      ∧ ∀ t ∈ tagged, ∃ loc seg,
          (⟨[("s0", 1)]⟩ : TableSnapshot).segments.get? t.1 = some loc
          ∧ env2.segment_read loc = Except.ok seg
          ∧ seg.blocks.get? t.2.1 = some t.2.2 :=
  prune_result_positions env2 ⟨[("s0", 1)]⟩ none 4
    (fun ob l xs ys h => by
      have hxy : xs = ys := Except.ok.inj h
      rw [← hxy])
    [(0, ⟨5, 0, some ("i0", 1), 4⟩), (0, ⟨5, 1, some ("i1", 1), 4⟩)] rfl

end Pruning
